import Mathlib

/-!
Verification development for the kagodb query-cursor engine.

The embedding follows `lib/core/cursor.js` (the `Cursor`, `Source`,
`Condition`, `Projection`, `Sort`, `Offset`, `Limit` stages and the
module-level `toArray` helper) together with `lib/mixin/find.js`.
Asynchronous callback-style code is sequential and deterministic here, so a
callback `function(err, item)` is modelled as a value of type `Res`:
an error, an end-of-sequence signal (`callback()` with no item), or an item.
Stage objects carry their mutable fields (`list`, `ready`, `rest`, ...), so a
stage is a value of the inductive `Stage` and `nextObject` maps a stage to a
result together with the updated stage.  The skip/discard/drain loops built
from callback re-registration in the JavaScript are modelled with an explicit
loop counter (`fuel`); every theorem states which fuel is sufficient, and the
functions are structurally recursive so they evaluate on concrete inputs.

The query-spec parsers (`ConditionOp.parser`, `ProjectionOp.parser`,
`SortOp.parser`, required from `lib/op/`) are not part of the provided
sources; they are modelled from the spec where needed and marked as such.
-/

/-- Errors that the cursor core can report through a callback's error slot:
backend failures from `index`/`read`, and the `invalid condition` /
`invalid projection` errors raised by `Condition.prototype.nextObject` and
`Projection.prototype.nextObject` when the stored spec is not callable. -/
inductive Error where
  | backend (msg : String)
  | invalidCondition
  | invalidProjection
deriving DecidableEq, Repr

/-- Outcome of one `nextObject` callback invocation: `callback(err)`,
`callback()` (end of sequence), or `callback(null, item)`. -/
inductive Res (α : Type) where
  | err (e : Error)
  | eof
  | item (a : α)
deriving DecidableEq, Repr

/-- Field values of stored items (strings and integers suffice for the
properties under verification). -/
inductive Value where
  | str (s : String)
  | int (n : Int)
deriving DecidableEq, Repr

/-- An item is a JavaScript object: a list of field bindings in declared
order.  Items are objects, hence always truthy in the `!item` tests. -/
abbrev Item := List (String × Value)

/-- Reads field `k` of an item (`item[k]`); `none` plays `undefined`. -/
def getField (item : Item) (k : String) : Option Value :=
  (item.find? (fun kv => kv.1 == k)).map (·.2)

/-- The storage collaborator as used by the cursor core: `index()` yields the
full key listing, `read(id)` yields one item.  Both are single-result
callback operations, modelled as `Except`. -/
structure Collection (α : Type) where
  index : Except Error (List String)
  read : String → Except Error α

/-- A pipeline stage together with its mutable state, one constructor per
stage class of `cursor.js`: `Source` (fetched key list or not-yet-fetched),
`Condition` (normalized predicate, `none` when the parser produced a truthy
non-callable), `Projection` (likewise), `Sort` (comparator and optional
drained buffer), `Offset` (`offset` field and `ready` flag) and `Limit`
(`limit` and the remaining count `rest`). -/
inductive Stage (α : Type) where
  | source (col : Collection α) (list : Option (List String))
  | condition (src : Stage α) (cond : Option (α → Bool))
  | projection (src : Stage α) (proj : Option (α → α))
  | sort (src : Stage α) (sorter : α → α → Int) (buf : Option (List α))
  | offset (src : Stage α) (off : Int) (ready : Bool)
  | limit (src : Stage α) (lim : Int) (rest : Int)

/-- Embeds the stage `rewind` methods: `Source.prototype.rewind` deletes the
key list; `Sort.prototype.rewind` drops the buffer and rewinds upstream;
`Offset.prototype.rewind` clears `ready` and rewinds upstream;
`Limit.prototype.rewind` resets `rest` to `limit` and rewinds upstream;
`Condition`/`Projection` inherit `Proto.prototype.rewind`, which only
rewinds upstream. -/
def Stage.rewind {α : Type} : Stage α → Stage α
  | .source col _ => .source col none
  | .condition src c => .condition src.rewind c
  | .projection src f => .projection src.rewind f
  | .sort src sorter _ => .sort src.rewind sorter none
  | .offset src off _ => .offset src.rewind off false
  | .limit src lim _ => .limit src.rewind lim lim

/-- Embeds the `next` callback closure inside `Condition.prototype.nextObject`:
pull from upstream (`nf`); on error report it, on end-of-sequence report it,
on a matching item report the item, otherwise pull again.  The counter bounds
the number of loop iterations; `none` means the counter ran out. -/
def condLoop {α : Type} (nf : Stage α → Option (Res α × Stage α)) (p : α → Bool) :
    Nat → Stage α → Option (Res α × Stage α)
  | 0, _ => none
  | n + 1, src =>
    match nf src with
    | none => none
    | some (.err e, src') => some (.err e, src')
    | some (.eof, src') => some (.eof, src')
    | some (.item a, src') =>
      if p a then some (.item a, src') else condLoop nf p n src'

/-- Embeds the `iterator` closure inside `Offset.prototype.nextObject`:
pull and drop from upstream while the local `rest` counter stays positive
after decrement; when the counter is spent, set `ready` and pass one upstream
pull straight through.  Errors and end-of-sequence during the discard phase
are reported with `ready` still unset, exactly as in the source. -/
def offsetLoop {α : Type} (nf : Stage α → Option (Res α × Stage α)) :
    Nat → Int → Stage α → Option (Res α × Stage α × Bool)
  | 0, _, _ => none
  | n + 1, rest, src =>
    match nf src with
    | none => none
    | some (.err e, src') => some (.err e, src', false)
    | some (.eof, src') => some (.eof, src', false)
    | some (.item _, src') =>
      if rest - 1 > 0 then offsetLoop nf n (rest - 1) src'
      else
        match nf src' with
        | none => none
        | some (r, src'') => some (r, src'', true)

/-- Embeds the module-level `toArray(source, callback)` helper of `cursor.js`:
pull items into `buf` until end-of-sequence (report the buffer) or an error
(report only the error, the buffer is discarded). -/
def drainLoop {α : Type} (nf : Stage α → Option (Res α × Stage α)) :
    Nat → Stage α → List α → Option (Except Error (List α) × Stage α)
  | 0, _, _ => none
  | n + 1, src, buf =>
    match nf src with
    | none => none
    | some (.err e, src') => some (.error e, src')
    | some (.eof, src') => some (.ok buf, src')
    | some (.item a, src') => drainLoop nf n src' (buf ++ [a])

/-- Models the JavaScript engine's `Array.prototype.sort(comparator)` used in
`Sort.prototype.nextObject` (`list.sort(self.sorter)`): insertion into an
already sorted tail with respect to `le a b := sorter a b <= 0`.  For a
consistent comparator this produces the sorted permutation that the
ECMAScript specification mandates. -/
def insertCmp {α : Type} (le : α → α → Bool) (a : α) : List α → List α
  | [] => [a]
  | b :: bs => if le a b then a :: b :: bs else b :: insertCmp le a bs

/-- Sorting driver for `insertCmp`; see `insertCmp`. -/
def sortCmp {α : Type} (le : α → α → Bool) : List α → List α
  | [] => []
  | a :: as => insertCmp le a (sortCmp le as)

/-- Array sort by a JavaScript-style numeric comparator; see `insertCmp`. -/
def sortList {α : Type} (sorter : α → α → Int) (l : List α) : List α :=
  sortCmp (fun a b => sorter a b ≤ 0) l

/-- Embeds the `nextObject` methods of all stage classes of `cursor.js`.
`fuel` bounds the total recursion depth (the JavaScript loops terminate on
finite backends; all theorems exhibit a sufficient fuel).  Each arm mirrors
one prototype method: `Source.prototype.nextObject` (serve from the fetched
key list, or fetch the index first and retry), `Condition.prototype.nextObject`
(report `invalid condition` for a non-callable spec, else run `condLoop`),
`Projection.prototype.nextObject` (report `invalid projection`, else map one
pulled item), `Sort.prototype.nextObject` (serve from the buffer — `shift()`
on an empty buffer yields `undefined`, i.e. end-of-sequence — or drain the
whole upstream with `toArray`, sort, and retry), `Offset.prototype.nextObject`
(pass through when `ready` or `offset <= 0`, else run `iterator`), and
`Limit.prototype.nextObject` (`rest-- > 0` passes one pull through, otherwise
report end-of-sequence without touching upstream). -/
def Stage.next {α : Type} : Nat → Stage α → Option (Res α × Stage α)
  | 0, _ => none
  | fuel + 1, s =>
    match s with
    | .source col list =>
      match list with
      | some [] => some (.eof, .source col (some []))
      | some (id :: rest) =>
        match col.read id with
        | .error e => some (.err e, .source col (some rest))
        | .ok a => some (.item a, .source col (some rest))
      | none =>
        match col.index with
        | .error e => some (.err e, .source col none)
        | .ok ids => Stage.next fuel (.source col (some ids))
    | .condition src c =>
      match c with
      | none => some (.err .invalidCondition, .condition src none)
      | some p =>
        match condLoop (fun t => Stage.next fuel t) p fuel src with
        | none => none
        | some (r, src') => some (r, .condition src' (some p))
    | .projection src c =>
      match c with
      | none => some (.err .invalidProjection, .projection src none)
      | some f =>
        match Stage.next fuel src with
        | none => none
        | some (.err e, src') => some (.err e, .projection src' (some f))
        | some (.eof, src') => some (.eof, .projection src' (some f))
        | some (.item a, src') => some (.item (f a), .projection src' (some f))
    | .sort src sorter buf =>
      match buf with
      | some [] => some (.eof, .sort src sorter (some []))
      | some (a :: rest) => some (.item a, .sort src sorter (some rest))
      | none =>
        match drainLoop (fun t => Stage.next fuel t) fuel src [] with
        | none => none
        | some (.error e, src') => some (.err e, .sort src' sorter none)
        | some (.ok l, src') =>
          match sortList sorter l with
          | [] => some (.eof, .sort src' sorter (some []))
          | a :: rest => some (.item a, .sort src' sorter (some rest))
    | .offset src off ready =>
      if ready ∨ off ≤ 0 then
        match Stage.next fuel src with
        | none => none
        | some (r, src') => some (r, .offset src' off ready)
      else
        match offsetLoop (fun t => Stage.next fuel t) fuel off src with
        | none => none
        | some (r, src', rdy) => some (r, .offset src' off rdy)
    | .limit src lim rest =>
      if rest > 0 then
        match Stage.next fuel src with
        | none => none
        | some (r, src') => some (r, .limit src' lim (rest - 1))
      else some (.eof, .limit src lim (rest - 1))

/-- Argument accepted by `find` for the condition slot: a test function, a
field-to-value equality map, or a structure the parser cannot normalize. -/
inductive CondArg where
  | func (p : Item → Bool)
  | eqmap (m : List (String × Value))
  | unsupported

/-- Argument accepted by `find` for the projection slot: a mapping function,
a field whitelist, or a structure the parser cannot normalize. -/
inductive ProjArg where
  | func (f : Item → Item)
  | fields (ks : List String)
  | unsupported

/-- Result of a query-spec parser as consumed by the `Cursor` constructor:
a falsy result (no stage is inserted), a callable, or a truthy value that is
not callable (a stage is inserted and its `nextObject` raises the
invalid-spec error). -/
inductive Parsed (φ : Type) where
  | falsy
  | fn (f : φ)
  | bad

/-- Modelled from the spec: the conjunction predicate built from a
field-to-exact-value equality map (all listed fields must match). -/
def eqPred (m : List (String × Value)) : Item → Bool :=
  fun item => m.all (fun kv => getField item kv.1 == some kv.2)

/-- Modelled from the spec: the transform built from a field whitelist —
copy only the whitelisted fields into a freshly constructed item. -/
def projFields (ks : List String) : Item → Item :=
  fun item => ks.filterMap (fun k => (getField item k).map (fun v => (k, v)))

/-- Modelled from the spec: `ConditionOp.parser` (from `lib/op/condition_op`,
not among the provided sources).  A test function passes through unchanged; a
field-to-exact-value equality map becomes the conjunction predicate; an
unsupported structure yields a truthy non-callable result. -/
def parseCondition : CondArg → Parsed (Item → Bool)
  | .func p => .fn p
  | .eqmap m => .fn (eqPred m)
  | .unsupported => .bad

/-- Modelled from the spec: `ProjectionOp.parser` (from
`lib/op/projection_op`, not among the provided sources).  A mapping function
passes through; a field whitelist becomes the transform that copies only the
whitelisted fields into a freshly constructed item. -/
def parseProjection : ProjArg → Parsed (Item → Item)
  | .func f => .fn f
  | .fields ks => .fn (projFields ks)
  | .unsupported => .bad

/-- Modelled from the spec: the comparison of two field values used by
object-form sort specifications — natural ordering within strings and within
numbers; comparisons involving `undefined` or mixed types are never `<` in
JavaScript, hence compare as equal. -/
def cmpValue : Option Value → Option Value → Int
  | some (.str a), some (.str b) => if a < b then -1 else if b < a then 1 else 0
  | some (.int a), some (.int b) => if a < b then -1 else if b < a then 1 else 0
  | _, _ => 0

/-- Modelled from the spec: the comparator built by `SortOp.parser` from an
object-form sort specification — keys are compared in declared order,
direction `1` keeps and `-1` reverses the comparison result, and ties fall
through to the next key. -/
def fieldComparator (spec : List (String × Int)) (a b : Item) : Int :=
  match spec with
  | [] => 0
  | (k, dir) :: rest =>
    let c := cmpValue (getField a k) (getField b k)
    if c = 0 then fieldComparator rest a b else dir * c

/-- Argument accepted by `sort`: a comparator function or an object-form
field/direction specification. -/
inductive SortArg where
  | func (cmp : Item → Item → Int)
  | fields (spec : List (String × Int))

/-- Modelled from the spec: `SortOp.parser` (from `lib/op/sort_op`, not among
the provided sources) — a comparator function passes through, an object-form
specification becomes `fieldComparator`. -/
def parseSort : SortArg → (Item → Item → Int)
  | .func c => c
  | .fields spec => fieldComparator spec

/-- Error thrown (synchronously) by `Proto.prototype.nextObject` and
`Proto.prototype.rewind` when the cursor has no chain head (`no source`). -/
inductive UsageErr where
  | noSource
deriving DecidableEq, Repr

/-- The user-facing cursor handle of `cursor.js`.  `source` is the current
chain head (`this.source`; an `Option` because `Proto` methods guard against
a missing head).  `headIsSource` models the identity test
`this.source === this._source`: it is `true` exactly when no stage was ever
wrapped around the original `Source`, and every wrapping operation sets it to
`false` — nothing else ever mutates `this.source` or `this._source`, so the
flag coincides with the reference comparison in the code.  `idxCache` and
`arrCache` are the memo fields `this._index` and `this._toArray`. -/
structure Cursor (α : Type) where
  collection : Collection α
  source : Option (Stage α)
  headIsSource : Bool
  idxCache : Option (List String)
  arrCache : Option (List α)

/-- Embeds `Proto.prototype.nextObject`: throw `no source` if the chain head
is missing, otherwise delegate to the head (returning the result and the
cursor with the head's updated state). -/
def Cursor.nextObjectC {α : Type} (fuel : Nat) (c : Cursor α) :
    Except UsageErr (Option (Res α × Cursor α)) :=
  match c.source with
  | none => .error .noSource
  | some s => .ok ((Stage.next fuel s).map (fun rs => (rs.1, { c with source := some rs.2 })))

/-- Embeds `Proto.prototype.rewind`: throw `no source` if the chain head is
missing, otherwise rewind the head (stages propagate rewind upstream). -/
def Cursor.rewindC {α : Type} (c : Cursor α) : Except UsageErr (Cursor α) :=
  match c.source with
  | none => .error .noSource
  | some s => .ok { c with source := some s.rewind }

/-- Embeds `Cursor.prototype.index`: serve a copy of the memoized key listing
if present, otherwise fetch `collection.index`, memoize it on success, and
serve a copy; an error is reported without touching the memo. -/
def Cursor.indexC {α : Type} (c : Cursor α) : Except Error (List String) × Cursor α :=
  match c.idxCache with
  | some l => (.ok l, c)
  | none =>
    match c.collection.index with
    | .error e => (.error e, c)
    | .ok l => (.ok l, { c with idxCache := some l })

/-- Embeds `Cursor.prototype.toArray`: serve a copy of the memoized list if
present, otherwise drain the chain head with the module-level `toArray`,
memoize the list on success, and serve a copy; an error is reported without
touching the memo.  (The returned list is the `[].concat` clone; aliasing is
modelled separately by `Cursor.toArrayH`.) -/
def Cursor.toArrayC {α : Type} (fuel : Nat) (c : Cursor α) :
    Option (Except Error (List α) × Cursor α) :=
  match c.arrCache with
  | some l => some (.ok l, c)
  | none =>
    match c.source with
    | none => none
    | some s =>
      match drainLoop (fun t => Stage.next fuel t) fuel s [] with
      | none => none
      | some (.error e, s') => some (.error e, { c with source := some s' })
      | some (.ok l, s') => some (.ok l, { c with source := some s', arrCache := some l })

/-- Embeds `Cursor.prototype.count`: when the chain head is still the
original `Source` (`this.source === this._source`), count via the cheap
`index` path, otherwise materialize via `toArray`; either way report the
resulting list's length. -/
def Cursor.countC {α : Type} (fuel : Nat) (c : Cursor α) :
    Option (Except Error Nat × Cursor α) :=
  if c.headIsSource then
    match c.indexC with
    | (.error e, c') => some (.error e, c')
    | (.ok l, c') => some (.ok l.length, c')
  else
    match Cursor.toArrayC fuel c with
    | none => none
    | some (.error e, c') => some (.error e, c')
    | some (.ok l, c') => some (.ok l.length, c')

/-- Embeds `Cursor.prototype.sort`: wrap the current chain head in a new
`Sort` stage (whose constructor stores the parsed comparator). -/
def Cursor.sortWith {α : Type} (c : Cursor α) (sorter : α → α → Int) : Cursor α :=
  { c with source := c.source.map (fun s => .sort s sorter none), headIsSource := false }

/-- Embeds `Cursor.prototype.offset`: wrap the current chain head in a new
`Offset` stage. -/
def Cursor.offsetC {α : Type} (c : Cursor α) (off : Int) : Cursor α :=
  { c with source := c.source.map (fun s => .offset s off false), headIsSource := false }

/-- Embeds `Cursor.prototype.limit`: wrap the current chain head in a new
`Limit` stage (`rest` starts at `limit`). -/
def Cursor.limitC {α : Type} (c : Cursor α) (lim : Int) : Cursor α :=
  { c with source := c.source.map (fun s => .limit s lim lim), headIsSource := false }

/-- Embeds `Cursor.prototype.sort` applied to a raw argument: the `Sort`
constructor calls `SortOp.parser` on it. -/
def Cursor.sortArg (c : Cursor Item) (arg : SortArg) : Cursor Item :=
  c.sortWith (parseSort arg)

/-- Embeds the `Cursor` constructor (`cursor.js` lines 61-77) as invoked by
`find()` of `mixin/find.js`: install a fresh `Source` as the chain head; if a
condition is given, parse it and, when the parse result is truthy, wrap a
`Condition` stage (a non-callable truthy result is stored and poisons
`nextObject`); then likewise for the projection.  `headIsSource` records
whether the head still equals the original `Source` reference. -/
def find (col : Collection Item) (condition : Option CondArg) (projection : Option ProjArg) :
    Cursor Item :=
  let src0 : Stage Item := .source col none
  let step1 : Stage Item × Bool :=
    match condition with
    | none => (src0, true)
    | some arg =>
      match parseCondition arg with
      | .falsy => (src0, true)
      | .fn p => (.condition src0 (some p), false)
      | .bad => (.condition src0 none, false)
  let step2 : Stage Item × Bool :=
    match projection with
    | none => step1
    | some arg =>
      match parseProjection arg with
      | .falsy => step1
      | .fn f => (.projection step1.1 (some f), false)
      | .bad => (.projection step1.1 none, false)
  { collection := col
    source := some step2.1
    headIsSource := step1.2 && step2.2
    idxCache := none
    arrCache := none }

/-- A store of JavaScript arrays, used to model array identity and the
`[].concat(...)` defensive copies of `Cursor.prototype.toArray`: references
are indices into the store, allocation appends, mutation updates in place. -/
structure Store (α : Type) where
  arrs : List (List α)

/-- Allocates a fresh array holding `l`; returns the store and the new
reference. -/
def Store.alloc {α : Type} (st : Store α) (l : List α) : Store α × Nat :=
  (⟨st.arrs ++ [l]⟩, st.arrs.length)

/-- Dereferences an array. -/
def Store.get {α : Type} (st : Store α) (r : Nat) : List α :=
  st.arrs.getD r []

/-- Mutates the array behind reference `r` (any caller-side mutation of a
returned array is some replacement of its contents). -/
def Store.set {α : Type} (st : Store α) (r : Nat) (l : List α) : Store α :=
  ⟨st.arrs.set r l⟩

/-- Embeds `Cursor.prototype.toArray` with array identity made explicit: the
memo cache holds list contents, and every successful reply allocates a fresh
array (`[].concat(self._toArray)`) for the caller. -/
def Cursor.toArrayH {α : Type} (fuel : Nat) (c : Cursor α) (st : Store α) :
    Option (Except Error Nat × Cursor α × Store α) :=
  match c.arrCache with
  | some l =>
    match st.alloc l with
    | (st', r) => some (.ok r, c, st')
  | none =>
    match c.source with
    | none => none
    | some s =>
      match drainLoop (fun t => Stage.next fuel t) fuel s [] with
      | none => none
      | some (.error e, s') => some (.error e, { c with source := some s' }, st)
      | some (.ok l, s') =>
        match st.alloc l with
        | (st', r) => some (.ok r, { c with source := some s', arrCache := some l }, st')

/-- State of a stage after a number of `nextObject` calls (used to reason
about "the (k+1)-th and later calls"). -/
def iterCalls {α : Type} (fuel : Nat) : Nat → Stage α → Option (Stage α)
  | 0, s => some s
  | m + 1, s =>
    match Stage.next fuel s with
    | none => none
    | some (_, s') => iterCalls fuel m s'

/-- First element of a list satisfying `q`, together with the remainder of
the list after it (specification device for the `Condition` skip loop). -/
def firstMatch {β : Type} (q : β → Bool) : List β → Option (β × List β)
  | [] => none
  | b :: bs => if q b then some (b, bs) else firstMatch q bs

/-- Innermost stage of a chain: the stage the `Cursor` constructor installed
first. -/
def Stage.base {α : Type} : Stage α → Stage α
  | .source col l => .source col l
  | .condition src _ => src.base
  | .projection src _ => src.base
  | .sort src _ _ => src.base
  | .offset src _ _ => src.base
  | .limit src _ _ => src.base

/-- A condition argument that the parser can normalize into a callable (or
that is absent): everything except the unsupported structure. -/
def condArgOk : Option CondArg → Bool
  | some .unsupported => false
  | _ => true

/-- Fixed demonstration item set (the four items of the repository's cursor
test suite, restricted to a string field and an integer field). -/
def demoItems : String → Item
  | "foo" => [("string", .str "FOO"), ("decimal", .int 123)]
  | "bar" => [("string", .str "BAR"), ("decimal", .int 111)]
  | "baz" => [("string", .str "BAZ"), ("decimal", .int 999)]
  | "qux" => [("string", .str "QUX"), ("decimal", .int 123)]
  | _ => []

/-- Demonstration backend: four keys, every read succeeds. -/
def demoCol : Collection Item :=
  { index := .ok ["foo", "bar", "baz", "qux"]
    read := fun id => .ok (demoItems id) }

/-- Demonstration backend whose read fails on the middle key. -/
def badCol : Collection Item :=
  { index := .ok ["a", "b", "c"]
    read := fun id =>
      if id = "b" then .error (.backend "boom") else .ok [("k", .int 1)] }

/-- Demonstration predicate: items whose decimal field equals 123. -/
def demoPred : Item → Bool := fun it => getField it "decimal" == some (.int 123)

/-! Basic list helpers for the array-store model. -/

theorem listGetD_append_len {α : Type} (xs : List α) (l d : α) :
    (xs ++ [l]).getD xs.length d = l := by
  induction xs with
  | nil => rfl
  | cons x xs ih => simp [ih]

theorem listGetD_append_lt {α : Type} (xs ys : List α) (i : Nat) (d : α) (h : i < xs.length) :
    (xs ++ ys).getD i d = xs.getD i d := by
  induction xs generalizing i with
  | nil => simp at h
  | cons x xs ih =>
    cases i with
    | zero => rfl
    | succ j => simpa using ih j (by simpa using h)

theorem listGetD_set_ne {α : Type} (xs : List α) (i j : Nat) (x d : α) (h : i ≠ j) :
    (xs.set i x).getD j d = xs.getD j d := by
  induction xs generalizing i j with
  | nil => rfl
  | cons y ys ih =>
    cases i with
    | zero =>
      cases j with
      | zero => exact absurd rfl h
      | succ j' => rfl
    | succ i' =>
      cases j with
      | zero => rfl
      | succ j' => simpa using ih i' j' (fun hc => h (by simpa using hc))

/-! Facts about `firstMatch`, the specification of the `Condition` skip loop. -/

theorem firstMatch_none_filter {β : Type} (q : β → Bool) (l : List β)
    (h : firstMatch q l = none) : l.filter q = [] := by
  induction l with
  | nil => rfl
  | cons b bs ih =>
    by_cases hb : q b
    · simp [firstMatch, hb] at h
    · simp only [firstMatch, hb, if_neg, Bool.false_eq_true, if_false] at h
      simp [List.filter, hb, ih h]

theorem firstMatch_some_filter {β : Type} (q : β → Bool) (l : List β) (b : β) (bs : List β)
    (h : firstMatch q l = some (b, bs)) :
    l.filter q = b :: bs.filter q ∧ q b = true ∧ bs.length < l.length ∧
      b ∈ l ∧ (∀ x ∈ bs, x ∈ l) := by
  induction l with
  | nil => simp [firstMatch] at h
  | cons c cs ih =>
    by_cases hc : q c
    · simp only [firstMatch, hc, if_pos, Option.some.injEq, Prod.mk.injEq] at h
      obtain ⟨rfl, rfl⟩ := h
      refine ⟨by simp [List.filter, hc], hc, by simp, by simp, ?_⟩
      intro x hx; exact List.mem_cons_of_mem _ hx
    · simp only [firstMatch, hc, Bool.false_eq_true, if_false] at h
      obtain ⟨h1, h2, h3, h4, h5⟩ := ih h
      refine ⟨by simp [List.filter, hc, h1], h2, by simpa using Nat.lt_succ_of_lt h3,
        List.mem_cons_of_mem _ h4, ?_⟩
      intro x hx; exact List.mem_cons_of_mem _ (h5 x hx)

/-! Unfolding lemmas for `Stage.next` on `Source` states, and congruence
lemmas showing that, with enough fuel, a stage over a not-yet-fetched
`Source` behaves exactly like the same stage over the fetched key list. -/

theorem next_source_nil {α : Type} (col : Collection α) (fuel : Nat) :
    Stage.next (fuel + 1) (.source col (some [])) = some (.eof, .source col (some [])) := rfl

theorem next_source_cons {α : Type} (col : Collection α) (id : String) (rest : List String)
    (fuel : Nat) :
    Stage.next (fuel + 1) (.source col (some (id :: rest))) =
      match col.read id with
      | .error e => some (.err e, .source col (some rest))
      | .ok a => some (.item a, .source col (some rest)) := rfl

theorem next_source_eq {α : Type} (col : Collection α) (ids : List String)
    (hidx : col.index = .ok ids) (fuel : Nat) :
    Stage.next (fuel + 2) (.source col none) = Stage.next (fuel + 2) (.source col (some ids)) := by
  cases ids with
  | nil => simp [Stage.next, hidx]
  | cons id rest => simp [Stage.next, hidx]

theorem condLoop_start_eq {α : Type} (nf : Stage α → Option (Res α × Stage α)) (p : α → Bool)
    (s1 s2 : Stage α) (h : nf s1 = nf s2) (n : Nat) :
    condLoop nf p (n + 1) s1 = condLoop nf p (n + 1) s2 := by
  simp only [condLoop, h]

theorem offsetLoop_start_eq {α : Type} (nf : Stage α → Option (Res α × Stage α)) (rest : Int)
    (s1 s2 : Stage α) (h : nf s1 = nf s2) (n : Nat) :
    offsetLoop nf (n + 1) rest s1 = offsetLoop nf (n + 1) rest s2 := by
  simp only [offsetLoop, h]

theorem drainLoop_start_eq {α : Type} (nf : Stage α → Option (Res α × Stage α)) (buf : List α)
    (s1 s2 : Stage α) (h : nf s1 = nf s2) (n : Nat) :
    drainLoop nf (n + 1) s1 buf = drainLoop nf (n + 1) s2 buf := by
  simp only [drainLoop, h]

theorem next_condition_fetch {α : Type} (col : Collection α) (ids : List String)
    (p : α → Bool) (hidx : col.index = .ok ids) (fuel : Nat) :
    Stage.next (fuel + 3) (.condition (.source col none) (some p)) =
      Stage.next (fuel + 3) (.condition (.source col (some ids)) (some p)) := by
  show (match condLoop (fun t => Stage.next (fuel + 2) t) p (fuel + 2) (.source col none) with
        | none => none
        | some (r, src') => some (r, Stage.condition src' (some p))) = _
  rw [condLoop_start_eq _ p _ _ (next_source_eq col ids hidx fuel) (fuel + 1)]
  rfl

theorem next_offset_fetch {α : Type} (col : Collection α) (ids : List String)
    (off : Int) (ready : Bool) (hidx : col.index = .ok ids) (fuel : Nat) :
    Stage.next (fuel + 3) (.offset (.source col none) off ready) =
      Stage.next (fuel + 3) (.offset (.source col (some ids)) off ready) := by
  by_cases h : ready ∨ off ≤ 0
  · show (if ready ∨ off ≤ 0 then _ else _) = (if ready ∨ off ≤ 0 then _ else _)
    rw [if_pos h, if_pos h, next_source_eq col ids hidx fuel]
  · show (if ready ∨ off ≤ 0 then _ else _) = (if ready ∨ off ≤ 0 then _ else _)
    rw [if_neg h, if_neg h,
      offsetLoop_start_eq _ off _ _ (next_source_eq col ids hidx fuel) (fuel + 1)]

theorem next_limit_fetch {α : Type} (col : Collection α) (ids : List String)
    (lim rest : Int) (hrest : 0 < rest) (hidx : col.index = .ok ids) (fuel : Nat) :
    Stage.next (fuel + 3) (.limit (.source col none) lim rest) =
      Stage.next (fuel + 3) (.limit (.source col (some ids)) lim rest) := by
  show (if rest > 0 then _ else _) = (if rest > 0 then _ else _)
  rw [if_pos hrest, if_pos hrest, next_source_eq col ids hidx fuel]

theorem next_sort_fetch {α : Type} (col : Collection α) (ids : List String)
    (sorter : α → α → Int) (hidx : col.index = .ok ids) (fuel : Nat) :
    Stage.next (fuel + 3) (.sort (.source col none) sorter none) =
      Stage.next (fuel + 3) (.sort (.source col (some ids)) sorter none) := by
  have h := drainLoop_start_eq (fun t => Stage.next (fuel + 2) t) []
    _ _ (next_source_eq col ids hidx fuel) (fuel + 1)
  exact congrArg (fun z =>
    match z with
    | none => none
    | some (.error e, src') => some (Res.err e, Stage.sort src' sorter none)
    | some (.ok l, src') =>
      match sortList sorter l with
      | [] => some (Res.eof, Stage.sort src' sorter (some []))
      | a :: rest => some (Res.item a, Stage.sort src' sorter (some rest))) h

/-- Filtering after mapping is mapping after filtering on the composed test. -/
theorem filterOfMap {β γ : Type} (g : β → γ) (p : γ → Bool) (l : List β) :
    (l.map g).filter p = (l.filter (fun b => p (g b))).map g := by
  induction l with
  | nil => rfl
  | cons b bs ih =>
    by_cases hb : p (g b) <;> simp [List.filter, hb, ih]

/-- Draining a fetched `Source` whose reads all succeed yields the items of
the key list in enumeration order, one read per key, leaving the key list
exhausted. -/
theorem drain_source {α : Type} (col : Collection α) (f : String → α) :
    ∀ (ids : List String) (buf : List α) (n fuel : Nat),
      ids.length < n →
      (∀ id ∈ ids, col.read id = .ok (f id)) →
      drainLoop (fun t => Stage.next (fuel + 1) t) n (.source col (some ids)) buf =
        some (.ok (buf ++ ids.map f), .source col (some [])) := by
  intro ids
  induction ids with
  | nil =>
    intro buf n fuel hn _
    cases n with
    | zero => omega
    | succ m => simp [drainLoop, next_source_nil]
  | cons id rest ih =>
    intro buf n fuel hn hread
    cases n with
    | zero => omega
    | succ m =>
      have hid : col.read id = .ok (f id) := hread id (by simp)
      simp only [drainLoop, next_source_cons, hid]
      rw [ih (buf ++ [f id]) m fuel (by simpa using hn)
        (fun x hx => hread x (List.mem_cons_of_mem _ hx))]
      simp

/-- Draining a fetched `Source` stops at the first failing read: the items
buffered before the failure are discarded, only the error is reported, and
the keys after the failing one are left unread. -/
theorem drain_source_err {α : Type} (col : Collection α) (f : String → α) (e : Error) :
    ∀ (pre : List String) (id : String) (post : List String) (buf : List α) (n fuel : Nat),
      pre.length + 1 < n →
      (∀ x ∈ pre, col.read x = .ok (f x)) →
      col.read id = .error e →
      drainLoop (fun t => Stage.next (fuel + 1) t) n (.source col (some (pre ++ id :: post))) buf =
        some (.error e, .source col (some post)) := by
  intro pre
  induction pre with
  | nil =>
    intro id post buf n fuel hn _ herr
    cases n with
    | zero => omega
    | succ m => simp [drainLoop, next_source_cons, herr]
  | cons x xs ih =>
    intro id post buf n fuel hn hread herr
    cases n with
    | zero => omega
    | succ m =>
      have hx : col.read x = .ok (f x) := hread x (by simp)
      simp only [List.cons_append, drainLoop, next_source_cons, hx]
      exact ih id post (buf ++ [f x]) m fuel (by simpa using hn)
        (fun y hy => hread y (List.mem_cons_of_mem _ hy)) herr

/-- The `Condition` skip loop over a fetched `Source`: it reports the first
matching item, leaving the source positioned right after it, or
end-of-sequence when no key produces a match. -/
theorem condLoop_source {α : Type} (col : Collection α) (f : String → α) (p : α → Bool) :
    ∀ (ids : List String) (n fuel : Nat),
      ids.length < n →
      (∀ id ∈ ids, col.read id = .ok (f id)) →
      condLoop (fun t => Stage.next (fuel + 1) t) p n (.source col (some ids)) =
        some (match firstMatch (fun id => p (f id)) ids with
              | none => (.eof, .source col (some []))
              | some (id, rest) => (.item (f id), .source col (some rest))) := by
  intro ids
  induction ids with
  | nil =>
    intro n fuel hn _
    cases n with
    | zero => omega
    | succ m => simp [condLoop, next_source_nil, firstMatch]
  | cons id rest ih =>
    intro n fuel hn hread
    cases n with
    | zero => omega
    | succ m =>
      have hid : col.read id = .ok (f id) := hread id (by simp)
      by_cases hp : p (f id)
      · simp [condLoop, next_source_cons, hid, firstMatch, hp]
      · simp only [condLoop, next_source_cons, hid, hp, Bool.false_eq_true, if_false,
          firstMatch]
        exact ih m fuel (by simpa using hn)
          (fun x hx => hread x (List.mem_cons_of_mem _ hx))


/-! One-step unfolding equations for `Stage.next` and the loops (plain
definitional equalities, used to rewrite a single step at a time). -/

theorem next_condition_unfold {α : Type} (fuel : Nat) (src : Stage α) (p : α → Bool) :
    Stage.next (fuel + 1) (.condition src (some p)) =
      match condLoop (fun t => Stage.next fuel t) p fuel src with
      | none => none
      | some (r, src') => some (r, .condition src' (some p)) := rfl

theorem next_projection_unfold {α : Type} (fuel : Nat) (src : Stage α) (f : α → α) :
    Stage.next (fuel + 1) (.projection src (some f)) =
      match Stage.next fuel src with
      | none => none
      | some (.err e, src') => some (.err e, .projection src' (some f))
      | some (.eof, src') => some (.eof, .projection src' (some f))
      | some (.item a, src') => some (.item (f a), .projection src' (some f)) := rfl

theorem next_sort_none_unfold {α : Type} (fuel : Nat) (src : Stage α) (sorter : α → α → Int) :
    Stage.next (fuel + 1) (.sort src sorter none) =
      match drainLoop (fun t => Stage.next fuel t) fuel src [] with
      | none => none
      | some (.error e, src') => some (.err e, .sort src' sorter none)
      | some (.ok l, src') =>
        match sortList sorter l with
        | [] => some (.eof, .sort src' sorter (some []))
        | a :: rest => some (.item a, .sort src' sorter (some rest)) := rfl

theorem next_sort_nil {α : Type} (fuel : Nat) (src : Stage α) (sorter : α → α → Int) :
    Stage.next (fuel + 1) (.sort src sorter (some [])) =
      some (.eof, .sort src sorter (some [])) := rfl

theorem next_sort_cons {α : Type} (fuel : Nat) (src : Stage α) (sorter : α → α → Int)
    (a : α) (rest : List α) :
    Stage.next (fuel + 1) (.sort src sorter (some (a :: rest))) =
      some (.item a, .sort src sorter (some rest)) := rfl

theorem next_offset_unfold {α : Type} (fuel : Nat) (src : Stage α) (off : Int) (ready : Bool) :
    Stage.next (fuel + 1) (.offset src off ready) =
      if ready ∨ off ≤ 0 then
        match Stage.next fuel src with
        | none => none
        | some (r, src') => some (r, .offset src' off ready)
      else
        match offsetLoop (fun t => Stage.next fuel t) fuel off src with
        | none => none
        | some (r, src', rdy) => some (r, .offset src' off rdy) := rfl

theorem next_limit_unfold {α : Type} (fuel : Nat) (src : Stage α) (lim rest : Int) :
    Stage.next (fuel + 1) (.limit src lim rest) =
      if rest > 0 then
        match Stage.next fuel src with
        | none => none
        | some (r, src') => some (r, .limit src' lim (rest - 1))
      else some (.eof, .limit src lim (rest - 1)) := rfl

theorem drainLoop_unfold {α : Type} (nf : Stage α → Option (Res α × Stage α)) (n : Nat)
    (src : Stage α) (buf : List α) :
    drainLoop nf (n + 1) src buf =
      match nf src with
      | none => none
      | some (.err e, src') => some (.error e, src')
      | some (.eof, src') => some (.ok buf, src')
      | some (.item a, src') => drainLoop nf n src' (buf ++ [a]) := rfl

theorem condLoop_unfold {α : Type} (nf : Stage α → Option (Res α × Stage α)) (p : α → Bool)
    (n : Nat) (src : Stage α) :
    condLoop nf p (n + 1) src =
      match nf src with
      | none => none
      | some (.err e, src') => some (.err e, src')
      | some (.eof, src') => some (.eof, src')
      | some (.item a, src') =>
        if p a then some (.item a, src') else condLoop nf p n src' := rfl

theorem offsetLoop_unfold {α : Type} (nf : Stage α → Option (Res α × Stage α)) (n : Nat)
    (rest : Int) (src : Stage α) :
    offsetLoop nf (n + 1) rest src =
      match nf src with
      | none => none
      | some (.err e, src') => some (.err e, src', false)
      | some (.eof, src') => some (.eof, src', false)
      | some (.item _, src') =>
        if rest - 1 > 0 then offsetLoop nf n (rest - 1) src'
        else
          match nf src' with
          | none => none
          | some (r, src'') => some (r, src'', true) := rfl

/-- Draining a `Condition` stage over a fetched `Source` yields exactly the
matching items, in enumeration order, leaving the source exhausted: the
filter characterization of `find(p).toArray()`. -/
theorem drain_condition {α : Type} (col : Collection α) (f : String → α) (p : α → Bool) :
    ∀ (N : Nat) (ids : List String), ids.length ≤ N →
      ∀ (buf : List α) (n fuel : Nat),
        ids.length < n → ids.length < fuel →
        (∀ id ∈ ids, col.read id = .ok (f id)) →
        drainLoop (fun t => Stage.next (fuel + 1) t) n
            (.condition (.source col (some ids)) (some p)) buf =
          some (.ok (buf ++ (ids.map f).filter p), .condition (.source col (some [])) (some p)) := by
  intro N
  induction N with
  | zero =>
    intro ids hN buf n fuel hn hfuel hread
    have hids : ids = [] := List.length_eq_zero.mp (Nat.le_zero.mp hN)
    subst hids
    cases n with
    | zero => omega
    | succ m =>
      cases fuel with
      | zero => omega
      | succ g =>
        simp only [drainLoop_unfold]
        rw [next_condition_unfold]
        rw [condLoop_source col f p [] (g + 1) g (by omega) (by simp)]
        simp [firstMatch]
  | succ N ih =>
    intro ids hN buf n fuel hn hfuel hread
    cases n with
    | zero => omega
    | succ m =>
      cases fuel with
      | zero => omega
      | succ g =>
        simp only [drainLoop_unfold]
        rw [next_condition_unfold]
        rw [condLoop_source col f p ids (g + 1) g (by omega) hread]
        cases hfm : firstMatch (fun id => p (f id)) ids with
        | none =>
          have hfil : ids.filter (fun id => p (f id)) = [] :=
            firstMatch_none_filter _ _ hfm
          simp [filterOfMap, hfil]
        | some pr =>
          obtain ⟨id, rest⟩ := pr
          obtain ⟨hfil, hq, hlen, hmem, hsub⟩ := firstMatch_some_filter _ _ _ _ hfm
          simp only []
          rw [ih rest (by omega) (buf ++ [f id]) m (g + 1) (by omega) (by omega)
            (fun x hx => hread x (hsub x hx))]
          rw [filterOfMap, filterOfMap, hfil]
          simp

/-- A `Condition` stage propagates an upstream read error as-is, advancing
the source only past the failing key and pulling nothing further. -/
theorem next_condition_err {α : Type} (col : Collection α) (p : α → Bool)
    (id : String) (tl : List String) (e : Error) (herr : col.read id = .error e) (fuel : Nat) :
    Stage.next (fuel + 2) (.condition (.source col (some (id :: tl))) (some p)) =
      some (.err e, .condition (.source col (some tl)) (some p)) := by
  rw [next_condition_unfold (fuel + 1)]
  rw [condLoop_unfold]
  simp [next_source_cons, herr]

/-- A `Condition` stage over an exhausted source keeps signalling
end-of-sequence with unchanged state. -/
theorem next_condition_eof {α : Type} (col : Collection α) (p : α → Bool) (fuel : Nat) :
    Stage.next (fuel + 2) (.condition (.source col (some [])) (some p)) =
      some (.eof, .condition (.source col (some [])) (some p)) := by
  rw [next_condition_unfold (fuel + 1)]
  rw [condLoop_unfold]
  simp [next_source_nil]

/-- Dropping after mapping is mapping after dropping. -/
theorem dropOfMap {β γ : Type} (g : β → γ) : ∀ (l : List β) (j : Nat),
    (l.map g).drop j = (l.drop j).map g := by
  intro l
  induction l with
  | nil => intro j; simp
  | cons b bs ih =>
    intro j
    cases j with
    | zero => simp
    | succ j' => exact ih j'

/-- The `Offset` discard loop over a fetched `Source` with a positive count:
if fewer keys remain than the count, every key is dropped and end-of-sequence
is reported with `ready` still unset; otherwise exactly `rest` keys are
dropped, `ready` is set, and one further pull is passed straight through. -/
theorem offsetLoop_source {α : Type} (col : Collection α) (f : String → α) :
    ∀ (ids : List String) (rest : Int) (n fuel : Nat),
      1 ≤ rest → ids.length < n →
      (∀ id ∈ ids, col.read id = .ok (f id)) →
      offsetLoop (fun t => Stage.next (fuel + 1) t) n rest (.source col (some ids)) =
        if (ids.length : Int) < rest then some (.eof, .source col (some []), false)
        else
          match ids.drop rest.toNat with
          | [] => some (.eof, .source col (some []), true)
          | id :: tl => some (.item (f id), .source col (some tl), true) := by
  intro ids
  induction ids with
  | nil =>
    intro rest n fuel hrest hn _
    cases n with
    | zero => omega
    | succ m =>
      rw [offsetLoop_unfold]
      simp only [next_source_nil]
      rw [if_pos (by simp; omega)]
  | cons id tl ih =>
    intro rest n fuel hrest hn hread
    cases n with
    | zero => omega
    | succ m =>
      have hid : col.read id = .ok (f id) := hread id (by simp)
      rw [offsetLoop_unfold]
      simp only [next_source_cons, hid]
      by_cases hr : rest - 1 > 0
      · rw [if_pos hr]
        rw [ih (rest - 1) m fuel (by omega) (by simpa using hn)
          (fun x hx => hread x (List.mem_cons_of_mem _ hx))]
        have hiff : ((tl.length : Int) < rest - 1) ↔ (((id :: tl).length : Int) < rest) := by
          simp; omega
        have hdrop : tl.drop (rest - 1).toNat = (id :: tl).drop rest.toNat := by
          have h1 : rest.toNat = (rest - 1).toNat + 1 := by omega
          rw [h1, List.drop_succ_cons]
        rw [hdrop]
        exact if_congr hiff rfl rfl
      · have hone : rest = 1 := by omega
        subst hone
        rw [if_neg hr]
        have hlen : ¬ (((id :: tl).length : Int) < 1) := by simp
        rw [if_neg hlen]
        cases tl with
        | nil => simp [next_source_nil]
        | cons id2 tl2 =>
          have hid2 : col.read id2 = .ok (f id2) := hread id2 (by simp)
          simp [next_source_cons, hid2]

/-- Draining an `Offset` stage that is already in pass-through mode
(`ready` set or a non-positive count) materializes every remaining upstream
item. -/
theorem drain_offset_pass {α : Type} (col : Collection α) (f : String → α)
    (off : Int) (ready : Bool) (hpass : ready = true ∨ off ≤ 0) :
    ∀ (ids : List String) (buf : List α) (n fuel : Nat),
      ids.length < n → 0 < fuel →
      (∀ id ∈ ids, col.read id = .ok (f id)) →
      drainLoop (fun t => Stage.next (fuel + 1) t) n
          (.offset (.source col (some ids)) off ready) buf =
        some (.ok (buf ++ ids.map f), .offset (.source col (some [])) off ready) := by
  intro ids
  induction ids with
  | nil =>
    intro buf n fuel hn hfuel _
    cases n with
    | zero => omega
    | succ m =>
      cases fuel with
      | zero => omega
      | succ g =>
        simp only [drainLoop_unfold]
        rw [next_offset_unfold (g + 1)]
        rw [if_pos hpass]
        simp [next_source_nil]
  | cons id tl ih =>
    intro buf n fuel hn hfuel hread
    cases n with
    | zero => omega
    | succ m =>
      cases fuel with
      | zero => omega
      | succ g =>
        have hid : col.read id = .ok (f id) := hread id (by simp)
        simp only [drainLoop_unfold]
        rw [next_offset_unfold (g + 1)]
        rw [if_pos hpass]
        simp only [next_source_cons, hid]
        rw [ih (buf ++ [f id]) m (g + 1) (by simpa using hn) (by omega)
          (fun x hx => hread x (List.mem_cons_of_mem _ hx))]
        simp

/-- Draining an `Offset` stage with a positive count over a fetched `Source`
yields exactly the tail of the enumeration after the first `k` items (empty,
with no error, when fewer than `k` items exist). -/
theorem drain_offset_pos {α : Type} (col : Collection α) (f : String → α)
    (ids : List String) (k : Int) (buf : List α) (n fuel : Nat)
    (hk : 1 ≤ k) (hn : ids.length + 1 < n) (hfuel : ids.length < fuel)
    (hread : ∀ id ∈ ids, col.read id = .ok (f id)) :
    drainLoop (fun t => Stage.next (fuel + 1) t) n
        (.offset (.source col (some ids)) k false) buf =
      if (ids.length : Int) < k then
        some (.ok buf, .offset (.source col (some [])) k false)
      else
        some (.ok (buf ++ (ids.map f).drop k.toNat), .offset (.source col (some [])) k true) := by
  cases n with
  | zero => omega
  | succ m =>
    cases fuel with
    | zero => omega
    | succ g =>
      simp only [drainLoop_unfold]
      rw [next_offset_unfold (g + 1)]
      rw [if_neg (by simp; omega)]
      rw [offsetLoop_source col f ids k (g + 1) g hk (by omega) hread]
      by_cases hlt : (ids.length : Int) < k
      · rw [if_pos hlt, if_pos hlt]
      · rw [if_neg hlt, if_neg hlt]
        cases hdrop : ids.drop k.toNat with
        | nil =>
          simp only []
          rw [dropOfMap, hdrop]
          simp
        | cons id tl =>
          simp only []
          have htl : tl.length < ids.length := by
            have := congrArg List.length hdrop
            simp [List.length_drop] at this
            omega
          have hsub : ∀ x ∈ tl, x ∈ ids := by
            intro x hx
            have hx2 : x ∈ ids.drop k.toNat := by rw [hdrop]; exact List.mem_cons_of_mem _ hx
            exact List.drop_subset _ _ hx2
          rw [drain_offset_pass col f k true (Or.inl rfl) tl (buf ++ [f id]) m (g + 1)
            (by omega) (by omega) (fun x hx => hread x (hsub x hx))]
          rw [dropOfMap, hdrop]
          simp

/-- Once the discard phase of an `Offset` stage has hit end-of-sequence, the
stage's state is unchanged, so every further call reports end-of-sequence
again. -/
theorem next_offset_eof_sticky {α : Type} (col : Collection α) (k : Int) (hk : 1 ≤ k)
    (fuel : Nat) :
    Stage.next (fuel + 2) (.offset (.source col (some [])) k false) =
      some (.eof, .offset (.source col (some [])) k false) := by
  rw [next_offset_unfold (fuel + 1)]
  rw [if_neg (by simp; omega)]
  rw [offsetLoop_unfold]
  simp [next_source_nil]

/-- A `Limit` stage whose remaining count is spent reports end-of-sequence
immediately, decrementing the count and leaving the upstream stage — whatever
it is, even one that would error — completely untouched. -/
theorem next_limit_nonpos {α : Type} (src : Stage α) (lim rest : Int) (hrest : rest ≤ 0)
    (fuel : Nat) :
    Stage.next (fuel + 1) (.limit src lim rest) = some (.eof, .limit src lim (rest - 1)) := by
  rw [next_limit_unfold]
  rw [if_neg (by omega)]

/-- Draining a `Limit` stage with a spent count reports the buffer as-is. -/
theorem drain_limit_nonpos {α : Type} (src : Stage α) (lim rest : Int) (hrest : rest ≤ 0)
    (buf : List α) (n fuel : Nat) :
    drainLoop (fun t => Stage.next (fuel + 1) t) (n + 1) (.limit src lim rest) buf =
      some (.ok buf, .limit src lim (rest - 1)) := by
  simp only [drainLoop_unfold]
  rw [next_limit_nonpos src lim rest hrest fuel]

/-- Draining a `Limit` stage with a positive count over a fetched `Source`
yields the first `rest` items of the enumeration (all of them when fewer
exist), in order. -/
theorem drain_limit_pos {α : Type} (col : Collection α) (f : String → α) :
    ∀ (ids : List String) (lim rest : Int) (buf : List α) (n fuel : Nat),
      1 ≤ rest → ids.length + 1 < n → 0 < fuel →
      (∀ id ∈ ids, col.read id = .ok (f id)) →
      drainLoop (fun t => Stage.next (fuel + 1) t) n
          (.limit (.source col (some ids)) lim rest) buf =
        if (ids.length : Int) < rest then
          some (.ok (buf ++ ids.map f), .limit (.source col (some [])) lim (rest - ids.length - 1))
        else
          some (.ok (buf ++ (ids.map f).take rest.toNat),
            .limit (.source col (some (ids.drop rest.toNat))) lim (-1)) := by
  intro ids
  induction ids with
  | nil =>
    intro lim rest buf n fuel hrest hn hfuel _
    cases n with
    | zero => omega
    | succ m =>
      cases fuel with
      | zero => omega
      | succ g =>
        simp only [drainLoop_unfold]
        rw [next_limit_unfold (g + 1)]
        rw [if_pos (by omega)]
        simp only [next_source_nil]
        rw [if_pos (by simp; omega)]
        simp
  | cons id tl ih =>
    intro lim rest buf n fuel hrest hn hfuel hread
    cases n with
    | zero => omega
    | succ m =>
      cases fuel with
      | zero => omega
      | succ g =>
        have hid : col.read id = .ok (f id) := hread id (by simp)
        simp only [drainLoop_unfold]
        rw [next_limit_unfold (g + 1)]
        rw [if_pos (by omega)]
        simp only [next_source_cons, hid]
        by_cases hr : 1 ≤ rest - 1
        · rw [ih lim (rest - 1) (buf ++ [f id]) m (g + 1) hr (by simpa using hn) (by omega)
            (fun x hx => hread x (List.mem_cons_of_mem _ hx))]
          have hto : rest.toNat = (rest - 1).toNat + 1 := by omega
          by_cases hlt : (tl.length : Int) < rest - 1
          · rw [if_pos hlt, if_pos (by simp; omega)]
            simp only [List.map_cons]
            have harith : rest - 1 - tl.length - 1 = rest - (tl.length + 1) - 1 := by ring
            rw [List.append_assoc]
            simp [harith]
          · rw [if_neg hlt, if_neg (by simp; omega)]
            rw [hto]
            simp only [List.map_cons, List.take_succ_cons, List.drop_succ_cons]
            simp
        · have hone : rest = 1 := by omega
          subst hone
          cases m with
          | zero => omega
          | succ m2 =>
            rw [drain_limit_nonpos (.source col (some tl)) lim (1 - 1) (by omega)
              (buf ++ [f id]) m2 (g + 1)]
            rw [if_neg (by simp)]
            have h1 : (1 : Int).toNat = 1 := rfl
            rw [h1]
            simp only [List.map_cons, List.take_succ_cons, List.drop_succ_cons]
            simp

theorem length_insertCmp {α : Type} (le : α → α → Bool) (a : α) :
    ∀ (l : List α), (insertCmp le a l).length = l.length + 1 := by
  intro l
  induction l with
  | nil => rfl
  | cons b bs ih =>
    by_cases h : le a b <;> simp [insertCmp, h, ih]

theorem length_sortCmp {α : Type} (le : α → α → Bool) :
    ∀ (l : List α), (sortCmp le l).length = l.length := by
  intro l
  induction l with
  | nil => rfl
  | cons a as ih => simp [sortCmp, length_insertCmp, ih]

theorem length_sortList {α : Type} (sorter : α → α → Int) (l : List α) :
    (sortList sorter l).length = l.length := length_sortCmp _ l

/-- Serving from a `Sort` buffer yields the buffered items one at a time, in
order, without ever consulting the upstream stage. -/
theorem drain_sort_buffer {α : Type} (s : Stage α) (sorter : α → α → Int) :
    ∀ (l : List α) (buf : List α) (n fuel : Nat), l.length < n →
      drainLoop (fun t => Stage.next (fuel + 1) t) n (.sort s sorter (some l)) buf =
        some (.ok (buf ++ l), .sort s sorter (some [])) := by
  intro l
  induction l with
  | nil =>
    intro buf n fuel hn
    cases n with
    | zero => omega
    | succ m => simp [drainLoop_unfold, next_sort_nil]
  | cons a rest ih =>
    intro buf n fuel hn
    cases n with
    | zero => omega
    | succ m =>
      simp only [drainLoop_unfold, next_sort_cons]
      rw [ih (buf ++ [a]) m fuel (by simpa using hn)]
      simp

/-- The first pull on an unstarted `Sort` stage drains the entire upstream
into a buffer, sorts it with the comparator, and serves the first sorted item
(end-of-sequence when the collection is empty), leaving the upstream
exhausted and the rest of the sorted buffer queued. -/
theorem next_sort_drain {α : Type} (col : Collection α) (f : String → α)
    (sorter : α → α → Int) (ids : List String) (fuel : Nat) (hfuel : ids.length < fuel)
    (hread : ∀ id ∈ ids, col.read id = .ok (f id)) :
    Stage.next (fuel + 1) (.sort (.source col (some ids)) sorter none) =
      match sortList sorter (ids.map f) with
      | [] => some (.eof, .sort (.source col (some [])) sorter (some []))
      | a :: rest => some (.item a, .sort (.source col (some [])) sorter (some rest)) := by
  rw [next_sort_none_unfold]
  cases fuel with
  | zero => omega
  | succ g =>
    rw [drain_source col f ids [] (g + 1) g (by omega) hread]
    simp

/-- Draining a `Sort` stage over a fetched `Source` yields the full
enumeration sorted by the comparator. -/
theorem drain_sort {α : Type} (col : Collection α) (f : String → α) (sorter : α → α → Int)
    (ids : List String) (buf : List α) (n fuel : Nat)
    (hn : ids.length + 1 < n) (hfuel : ids.length < fuel)
    (hread : ∀ id ∈ ids, col.read id = .ok (f id)) :
    drainLoop (fun t => Stage.next (fuel + 1) t) n
        (.sort (.source col (some ids)) sorter none) buf =
      some (.ok (buf ++ sortList sorter (ids.map f)),
        .sort (.source col (some [])) sorter (some [])) := by
  cases n with
  | zero => omega
  | succ m =>
    simp only [drainLoop_unfold]
    rw [next_sort_drain col f sorter ids fuel hfuel hread]
    cases hs : sortList sorter (ids.map f) with
    | nil => simp
    | cons a rest =>
      have hlen : rest.length < ids.length + 1 := by
        have := length_sortList sorter (ids.map f)
        rw [hs] at this
        simp at this
        omega
      simp only []
      rw [drain_sort_buffer (.source col (some [])) sorter rest (buf ++ [a]) m fuel (by omega)]
      simp

/-- Every call on a `Limit` stage decrements `rest` by exactly one, so after
`m` calls the remaining count is the original minus `m`. -/
theorem iterCalls_limit {α : Type} (fuel : Nat) :
    ∀ (m : Nat) (src : Stage α) (lim rest : Int) (s' : Stage α),
      iterCalls fuel m (.limit src lim rest) = some s' →
      ∃ u, s' = .limit u lim (rest - m) := by
  intro m
  induction m with
  | zero =>
    intro src lim rest s' h
    simp only [iterCalls] at h
    exact ⟨src, by simpa using h.symm⟩
  | succ m2 ih =>
    intro src lim rest s' h
    simp only [iterCalls] at h
    cases fuel with
    | zero => simp [Stage.next] at h
    | succ g =>
      rw [next_limit_unfold] at h
      by_cases hr : rest > 0
      · rw [if_pos hr] at h
        cases hg : Stage.next g src with
        | none => rw [hg] at h; simp at h
        | some rs =>
          obtain ⟨r, src'⟩ := rs
          rw [hg] at h
          simp only [] at h
          obtain ⟨u, hu⟩ := ih src' lim (rest - 1) s' h
          exact ⟨u, by rw [hu]; congr 1; push_cast; ring⟩
      · rw [if_neg hr] at h
        simp only [] at h
        obtain ⟨u, hu⟩ := ih src lim (rest - 1) s' h
        exact ⟨u, by rw [hu]; congr 1; push_cast; ring⟩

theorem mem_insertCmp {α : Type} (le : α → α → Bool) (a x : α) :
    ∀ (l : List α), x ∈ insertCmp le a l ↔ x = a ∨ x ∈ l := by
  intro l
  induction l with
  | nil => simp [insertCmp]
  | cons b bs ih =>
    by_cases h : le a b
    · simp [insertCmp, h]
    · simp only [insertCmp, h, Bool.false_eq_true, if_false, List.mem_cons, ih]
      tauto

theorem mem_sortCmp {α : Type} (le : α → α → Bool) (x : α) :
    ∀ (l : List α), x ∈ sortCmp le l ↔ x ∈ l := by
  intro l
  induction l with
  | nil => simp [sortCmp]
  | cons a as ih => simp [sortCmp, mem_insertCmp, ih]

theorem head_insertCmp {α : Type} (le : α → α → Bool) (a : α) :
    ∀ (l : List α) (y : α), (insertCmp le a l).head? = some y → y = a ∨ l.head? = some y := by
  intro l y
  cases l with
  | nil => intro h; simp [insertCmp] at h; exact Or.inl h.symm
  | cons c cs =>
    by_cases h : le a c
    · simp [insertCmp, h]
      intro hy; exact Or.inl hy.symm
    · simp only [insertCmp, h, Bool.false_eq_true, if_false, List.head?_cons,
        Option.some.injEq]
      intro hy; exact Or.inr hy

/-- Inserting into an adjacently sorted list keeps it adjacently sorted, given
that the comparison is total; no transitivity is required for adjacent
sortedness. -/
theorem chain_insertCmp {α : Type} (le : α → α → Bool)
    (htot : ∀ x y, le x y = true ∨ le y x = true) (a : α) :
    ∀ (l : List α), List.Chain' (fun x y => le x y = true) l →
      List.Chain' (fun x y => le x y = true) (insertCmp le a l) := by
  intro l
  induction l with
  | nil => intro _; simp [insertCmp]
  | cons b bs ih =>
    intro hch
    rw [List.chain'_cons'] at hch
    obtain ⟨hhead, htail⟩ := hch
    by_cases h : le a b
    · simp only [insertCmp, h, if_true]
      rw [List.chain'_cons]
      constructor
      · exact h
      · rw [List.chain'_cons']
        exact ⟨hhead, htail⟩
    · simp only [insertCmp, h, Bool.false_eq_true, if_false]
      rw [List.chain'_cons']
      refine ⟨?_, ih htail⟩
      intro y hy
      rcases head_insertCmp le a bs y hy with hya | hyb
      · rcases htot a b with h1 | h1
        · exact absurd h1 h
        · rw [hya]; exact h1
      · exact hhead y hyb

/-- Insertion sort by a total comparison produces an adjacently sorted list. -/
theorem chain_sortCmp {α : Type} (le : α → α → Bool)
    (htot : ∀ x y, le x y = true ∨ le y x = true) :
    ∀ (l : List α), List.Chain' (fun x y => le x y = true) (sortCmp le l) := by
  intro l
  induction l with
  | nil => simp [sortCmp]
  | cons a as ih => exact chain_insertCmp le htot a (sortCmp le as) ih

/-- Output of the modelled array sort is adjacently sorted with respect to
`sorter ... <= 0` whenever the comparator is antisymmetric. -/
theorem sorted_sortList {α : Type} (sorter : α → α → Int)
    (hanti : ∀ a b, sorter a b = -(sorter b a)) (l : List α) :
    List.Chain' (fun a b => sorter a b ≤ 0) (sortList sorter l) := by
  have htot : ∀ x y : α, (decide (sorter x y ≤ 0)) = true ∨ (decide (sorter y x ≤ 0)) = true := by
    intro x y
    have := hanti x y
    rcases le_or_lt (sorter x y) 0 with h | h
    · exact Or.inl (by simpa using h)
    · exact Or.inr (by simp; omega)
  have hch := chain_sortCmp (fun a b => decide (sorter a b ≤ 0)) htot l
  refine List.Chain'.imp ?_ hch
  intro a b h
  simpa using h

theorem mem_sortList {α : Type} (sorter : α → α → Int) (x : α) (l : List α) :
    x ∈ sortList sorter l ↔ x ∈ l := mem_sortCmp _ x l

/-- The value comparison flips sign when its arguments are swapped. -/
theorem cmpValue_antisym (x y : Option Value) : cmpValue x y = -(cmpValue y x) := by
  rcases x with _ | v
  · rcases y with _ | w
    · rfl
    · rcases w with s | n <;> rfl
  · rcases v with s | n
    · rcases y with _ | w
      · rfl
      · rcases w with s2 | n2
        · rcases lt_trichotomy s s2 with h | h | h
          · simp [cmpValue, h, asymm h]
          · subst h; simp [cmpValue]
          · simp [cmpValue, h, asymm h]
        · rfl
    · rcases y with _ | w
      · rfl
      · rcases w with s2 | n2
        · rfl
        · rcases lt_trichotomy n n2 with h | h | h
          · simp [cmpValue, h, asymm h]
          · subst h; simp [cmpValue]
          · simp [cmpValue, h, asymm h]

/-- The comparator built from an object-form sort specification flips sign
when its arguments are swapped. -/
theorem fieldComparator_antisym (spec : List (String × Int)) :
    ∀ (a b : Item), fieldComparator spec a b = -(fieldComparator spec b a) := by
  induction spec with
  | nil => intro a b; rfl
  | cons kd rest ih =>
    intro a b
    obtain ⟨k, dir⟩ := kd
    simp only [fieldComparator]
    have hcv := cmpValue_antisym (getField a k) (getField b k)
    by_cases h : cmpValue (getField a k) (getField b k) = 0
    · rw [if_pos h, if_pos (by omega)]
      exact ih a b
    · rw [if_neg h, if_neg (by omega)]
      rw [hcv]; ring

/-- A single ascending key compares exactly by the field value. -/
theorem fieldComparator_single_asc (k : String) (a b : Item) :
    fieldComparator [(k, 1)] a b = cmpValue (getField a k) (getField b k) := by
  simp only [fieldComparator]
  by_cases h : cmpValue (getField a k) (getField b k) = 0
  · rw [if_pos h]; omega
  · rw [if_neg h]; omega

/-- A single descending key compares by the reversed comparison result. -/
theorem fieldComparator_single_desc (k : String) (a b : Item) :
    fieldComparator [(k, -1)] a b = -(cmpValue (getField a k) (getField b k)) := by
  simp only [fieldComparator]
  by_cases h : cmpValue (getField a k) (getField b k) = 0
  · rw [if_pos h]; omega
  · rw [if_neg h]; omega

/-- When the leading key ties, a multi-key comparator falls through to the
remaining keys, in declared order. -/
theorem fieldComparator_tie (k : String) (d : Int) (rest : List (String × Int)) (a b : Item)
    (h : cmpValue (getField a k) (getField b k) = 0) :
    fieldComparator ((k, d) :: rest) a b = fieldComparator rest a b := by
  simp [fieldComparator, h]

/-- Interpretation of the value comparison on integer fields: non-positive
means less-or-equal, non-negative means greater-or-equal. -/
theorem cmpValue_int_le (na nb : Int) :
    (cmpValue (some (.int na)) (some (.int nb)) ≤ 0 ↔ na ≤ nb) ∧
    (0 ≤ cmpValue (some (.int na)) (some (.int nb)) ↔ nb ≤ na) := by
  constructor
  · constructor
    · intro h
      by_contra hc
      simp only [cmpValue] at h
      rw [if_neg (by omega), if_pos (by omega)] at h
      omega
    · intro h
      simp only [cmpValue]
      by_cases h1 : na < nb
      · rw [if_pos h1]; omega
      · rw [if_neg h1, if_neg (by omega)]
  · constructor
    · intro h
      by_contra hc
      simp only [cmpValue] at h
      rw [if_pos (by omega)] at h
      omega
    · intro h
      simp only [cmpValue]
      by_cases h1 : na < nb
      · omega
      · rw [if_neg h1]
        by_cases h2 : nb < na
        · rw [if_pos h2]; omega
        · rw [if_neg h2]

/-! Wrappers of the step and drain lemmas stated for an arbitrary fuel with a
lower bound, so they apply directly at the fuel a cursor method passes in. -/

theorem drain_start {α : Type} (fuel n : Nat) (s1 s2 : Stage α) (buf : List α)
    (hn : 1 ≤ n) (h : Stage.next fuel s1 = Stage.next fuel s2) :
    drainLoop (fun t => Stage.next fuel t) n s1 buf =
      drainLoop (fun t => Stage.next fuel t) n s2 buf := by
  obtain ⟨m, rfl⟩ : ∃ m, n = m + 1 := ⟨n - 1, by omega⟩
  exact drainLoop_start_eq _ buf _ _ h m

theorem next_source_eqF {α : Type} (col : Collection α) (ids : List String)
    (hidx : col.index = .ok ids) (fuel : Nat) (hf : 2 ≤ fuel) :
    Stage.next fuel (.source col none) = Stage.next fuel (.source col (some ids)) := by
  obtain ⟨g, rfl⟩ : ∃ g, fuel = g + 2 := ⟨fuel - 2, by omega⟩
  exact next_source_eq col ids hidx g

theorem next_condition_fetchF {α : Type} (col : Collection α) (ids : List String)
    (p : α → Bool) (hidx : col.index = .ok ids) (fuel : Nat) (hf : 3 ≤ fuel) :
    Stage.next fuel (.condition (.source col none) (some p)) =
      Stage.next fuel (.condition (.source col (some ids)) (some p)) := by
  obtain ⟨g, rfl⟩ : ∃ g, fuel = g + 3 := ⟨fuel - 3, by omega⟩
  exact next_condition_fetch col ids p hidx g

theorem next_offset_fetchF {α : Type} (col : Collection α) (ids : List String)
    (off : Int) (ready : Bool) (hidx : col.index = .ok ids) (fuel : Nat) (hf : 3 ≤ fuel) :
    Stage.next fuel (.offset (.source col none) off ready) =
      Stage.next fuel (.offset (.source col (some ids)) off ready) := by
  obtain ⟨g, rfl⟩ : ∃ g, fuel = g + 3 := ⟨fuel - 3, by omega⟩
  exact next_offset_fetch col ids off ready hidx g

theorem next_limit_fetchF {α : Type} (col : Collection α) (ids : List String)
    (lim rest : Int) (hrest : 0 < rest) (hidx : col.index = .ok ids) (fuel : Nat)
    (hf : 3 ≤ fuel) :
    Stage.next fuel (.limit (.source col none) lim rest) =
      Stage.next fuel (.limit (.source col (some ids)) lim rest) := by
  obtain ⟨g, rfl⟩ : ∃ g, fuel = g + 3 := ⟨fuel - 3, by omega⟩
  exact next_limit_fetch col ids lim rest hrest hidx g

theorem next_sort_fetchF {α : Type} (col : Collection α) (ids : List String)
    (sorter : α → α → Int) (hidx : col.index = .ok ids) (fuel : Nat) (hf : 3 ≤ fuel) :
    Stage.next fuel (.sort (.source col none) sorter none) =
      Stage.next fuel (.sort (.source col (some ids)) sorter none) := by
  obtain ⟨g, rfl⟩ : ∃ g, fuel = g + 3 := ⟨fuel - 3, by omega⟩
  exact next_sort_fetch col ids sorter hidx g

theorem drain_sourceF {α : Type} (col : Collection α) (f : String → α) (ids : List String)
    (buf : List α) (n fuel : Nat) (hn : ids.length < n) (hf : 1 ≤ fuel)
    (hread : ∀ id ∈ ids, col.read id = .ok (f id)) :
    drainLoop (fun t => Stage.next fuel t) n (.source col (some ids)) buf =
      some (.ok (buf ++ ids.map f), .source col (some [])) := by
  obtain ⟨g, rfl⟩ : ∃ g, fuel = g + 1 := ⟨fuel - 1, by omega⟩
  exact drain_source col f ids buf n g hn hread

theorem drain_source_errF {α : Type} (col : Collection α) (f : String → α) (e : Error)
    (pre : List String) (id : String) (post : List String) (buf : List α) (n fuel : Nat)
    (hn : pre.length + 1 < n) (hf : 1 ≤ fuel)
    (hread : ∀ x ∈ pre, col.read x = .ok (f x))
    (herr : col.read id = .error e) :
    drainLoop (fun t => Stage.next fuel t) n (.source col (some (pre ++ id :: post))) buf =
      some (.error e, .source col (some post)) := by
  obtain ⟨g, rfl⟩ : ∃ g, fuel = g + 1 := ⟨fuel - 1, by omega⟩
  exact drain_source_err col f e pre id post buf n g hn hread herr

theorem drain_conditionF {α : Type} (col : Collection α) (f : String → α) (p : α → Bool)
    (ids : List String) (buf : List α) (n fuel : Nat)
    (hn : ids.length < n) (hf : ids.length + 2 ≤ fuel)
    (hread : ∀ id ∈ ids, col.read id = .ok (f id)) :
    drainLoop (fun t => Stage.next fuel t) n (.condition (.source col (some ids)) (some p)) buf =
      some (.ok (buf ++ (ids.map f).filter p), .condition (.source col (some [])) (some p)) := by
  obtain ⟨g, rfl⟩ : ∃ g, fuel = g + 1 := ⟨fuel - 1, by omega⟩
  exact drain_condition col f p ids.length ids le_rfl buf n g hn (by omega) hread

theorem drain_offset_passF {α : Type} (col : Collection α) (f : String → α)
    (off : Int) (ready : Bool) (hpass : ready = true ∨ off ≤ 0) (ids : List String)
    (buf : List α) (n fuel : Nat) (hn : ids.length < n) (hf : 2 ≤ fuel)
    (hread : ∀ id ∈ ids, col.read id = .ok (f id)) :
    drainLoop (fun t => Stage.next fuel t) n (.offset (.source col (some ids)) off ready) buf =
      some (.ok (buf ++ ids.map f), .offset (.source col (some [])) off ready) := by
  obtain ⟨g, rfl⟩ : ∃ g, fuel = g + 1 := ⟨fuel - 1, by omega⟩
  exact drain_offset_pass col f off ready hpass ids buf n g hn (by omega) hread

theorem drain_offset_posF {α : Type} (col : Collection α) (f : String → α)
    (ids : List String) (k : Int) (buf : List α) (n fuel : Nat)
    (hk : 1 ≤ k) (hn : ids.length + 1 < n) (hf : ids.length + 2 ≤ fuel)
    (hread : ∀ id ∈ ids, col.read id = .ok (f id)) :
    drainLoop (fun t => Stage.next fuel t) n (.offset (.source col (some ids)) k false) buf =
      if (ids.length : Int) < k then
        some (.ok buf, .offset (.source col (some [])) k false)
      else
        some (.ok (buf ++ (ids.map f).drop k.toNat), .offset (.source col (some [])) k true) := by
  obtain ⟨g, rfl⟩ : ∃ g, fuel = g + 1 := ⟨fuel - 1, by omega⟩
  exact drain_offset_pos col f ids k buf n g hk hn (by omega) hread

theorem drain_limit_posF {α : Type} (col : Collection α) (f : String → α)
    (ids : List String) (lim rest : Int) (buf : List α) (n fuel : Nat)
    (hrest : 1 ≤ rest) (hn : ids.length + 1 < n) (hf : 2 ≤ fuel)
    (hread : ∀ id ∈ ids, col.read id = .ok (f id)) :
    drainLoop (fun t => Stage.next fuel t) n (.limit (.source col (some ids)) lim rest) buf =
      if (ids.length : Int) < rest then
        some (.ok (buf ++ ids.map f), .limit (.source col (some [])) lim (rest - ids.length - 1))
      else
        some (.ok (buf ++ (ids.map f).take rest.toNat),
          .limit (.source col (some (ids.drop rest.toNat))) lim (-1)) := by
  obtain ⟨g, rfl⟩ : ∃ g, fuel = g + 1 := ⟨fuel - 1, by omega⟩
  exact drain_limit_pos col f ids lim rest buf n g hrest hn (by omega) hread

theorem drain_limit_nonposF {α : Type} (src : Stage α) (lim rest : Int) (hrest : rest ≤ 0)
    (buf : List α) (n fuel : Nat) (hn : 1 ≤ n) (hf : 1 ≤ fuel) :
    drainLoop (fun t => Stage.next fuel t) n (.limit src lim rest) buf =
      some (.ok buf, .limit src lim (rest - 1)) := by
  obtain ⟨m, rfl⟩ : ∃ m, n = m + 1 := ⟨n - 1, by omega⟩
  obtain ⟨g, rfl⟩ : ∃ g, fuel = g + 1 := ⟨fuel - 1, by omega⟩
  exact drain_limit_nonpos src lim rest hrest buf m g

theorem drain_sortF {α : Type} (col : Collection α) (f : String → α) (sorter : α → α → Int)
    (ids : List String) (buf : List α) (n fuel : Nat)
    (hn : ids.length + 1 < n) (hf : ids.length + 2 ≤ fuel)
    (hread : ∀ id ∈ ids, col.read id = .ok (f id)) :
    drainLoop (fun t => Stage.next fuel t) n (.sort (.source col (some ids)) sorter none) buf =
      some (.ok (buf ++ sortList sorter (ids.map f)),
        .sort (.source col (some [])) sorter (some [])) := by
  obtain ⟨g, rfl⟩ : ∃ g, fuel = g + 1 := ⟨fuel - 1, by omega⟩
  exact drain_sort col f sorter ids buf n g hn (by omega) hread

theorem next_condition_errF {α : Type} (col : Collection α) (p : α → Bool)
    (id : String) (tl : List String) (e : Error) (herr : col.read id = .error e)
    (fuel : Nat) (hf : 2 ≤ fuel) :
    Stage.next fuel (.condition (.source col (some (id :: tl))) (some p)) =
      some (.err e, .condition (.source col (some tl)) (some p)) := by
  obtain ⟨g, rfl⟩ : ∃ g, fuel = g + 2 := ⟨fuel - 2, by omega⟩
  exact next_condition_err col p id tl e herr g

theorem next_condition_eofF {α : Type} (col : Collection α) (p : α → Bool)
    (fuel : Nat) (hf : 2 ≤ fuel) :
    Stage.next fuel (.condition (.source col (some [])) (some p)) =
      some (.eof, .condition (.source col (some [])) (some p)) := by
  obtain ⟨g, rfl⟩ : ∃ g, fuel = g + 2 := ⟨fuel - 2, by omega⟩
  exact next_condition_eof col p g

theorem next_offset_eof_stickyF {α : Type} (col : Collection α) (k : Int) (hk : 1 ≤ k)
    (fuel : Nat) (hf : 2 ≤ fuel) :
    Stage.next fuel (.offset (.source col (some [])) k false) =
      some (.eof, .offset (.source col (some [])) k false) := by
  obtain ⟨g, rfl⟩ : ∃ g, fuel = g + 2 := ⟨fuel - 2, by omega⟩
  exact next_offset_eof_sticky col k hk g

theorem next_limit_nonposF {α : Type} (src : Stage α) (lim rest : Int) (hrest : rest ≤ 0)
    (fuel : Nat) (hf : 1 ≤ fuel) :
    Stage.next fuel (.limit src lim rest) = some (.eof, .limit src lim (rest - 1)) := by
  obtain ⟨g, rfl⟩ : ∃ g, fuel = g + 1 := ⟨fuel - 1, by omega⟩
  exact next_limit_nonpos src lim rest hrest g

theorem next_sort_drainF {α : Type} (col : Collection α) (f : String → α)
    (sorter : α → α → Int) (ids : List String) (fuel : Nat) (hf : ids.length + 2 ≤ fuel)
    (hread : ∀ id ∈ ids, col.read id = .ok (f id)) :
    Stage.next fuel (.sort (.source col (some ids)) sorter none) =
      match sortList sorter (ids.map f) with
      | [] => some (.eof, .sort (.source col (some [])) sorter (some []))
      | a :: rest => some (.item a, .sort (.source col (some [])) sorter (some rest)) := by
  obtain ⟨g, rfl⟩ : ∃ g, fuel = g + 1 := ⟨fuel - 1, by omega⟩
  exact next_sort_drain col f sorter ids g (by omega) hread

/-! Reduction of `find` and the cursor methods on explicit cursor values. -/

theorem find_none_none (col : Collection Item) :
    find col none none =
      ⟨col, some (.source col none), true, none, none⟩ := rfl

theorem find_cond_func (col : Collection Item) (p : Item → Bool) :
    find col (some (.func p)) none =
      ⟨col, some (.condition (.source col none) (some p)), false, none, none⟩ := rfl

theorem find_cond_eqmap (col : Collection Item) (m : List (String × Value)) :
    find col (some (.eqmap m)) none =
      ⟨col, some (.condition (.source col none) (some (eqPred m))), false, none, none⟩ := rfl

theorem find_cond_bad (col : Collection Item) :
    find col (some .unsupported) none =
      ⟨col, some (.condition (.source col none) none), false, none, none⟩ := rfl

theorem find_proj_bad (col : Collection Item) :
    find col none (some .unsupported) =
      ⟨col, some (.projection (.source col none) none), false, none, none⟩ := rfl

theorem toArrayC_cached {α : Type} (fuel : Nat) (col : Collection α) (s : Option (Stage α))
    (flag : Bool) (idx : Option (List String)) (l : List α) :
    Cursor.toArrayC fuel ⟨col, s, flag, idx, some l⟩ =
      some (.ok l, ⟨col, s, flag, idx, some l⟩) := rfl

theorem toArrayC_fresh {α : Type} (fuel : Nat) (col : Collection α) (s : Stage α)
    (flag : Bool) (idx : Option (List String)) :
    Cursor.toArrayC fuel ⟨col, some s, flag, idx, none⟩ =
      match drainLoop (fun t => Stage.next fuel t) fuel s [] with
      | none => none
      | some (.error e, s') => some (.error e, ⟨col, some s', flag, idx, none⟩)
      | some (.ok l, s') => some (.ok l, ⟨col, some s', flag, idx, some l⟩) := rfl

/-- Materializing a bare-`Source` cursor (a `find()` with no condition and no
projection) reads every key in enumeration order and memoizes the list. -/
theorem toArrayC_find_plain {α : Type} (col : Collection α) (f : String → α)
    (ids : List String) (flag : Bool) (idx : Option (List String))
    (hidx : col.index = .ok ids)
    (hread : ∀ id ∈ ids, col.read id = .ok (f id))
    (fuel : Nat) (hf : ids.length + 3 ≤ fuel) :
    Cursor.toArrayC fuel ⟨col, some (.source col none), flag, idx, none⟩ =
      some (.ok (ids.map f),
        ⟨col, some (.source col (some [])), flag, idx, some (ids.map f)⟩) := by
  rw [toArrayC_fresh]
  rw [drain_start fuel fuel _ (.source col (some ids)) [] (by omega)
    (next_source_eqF col ids hidx fuel (by omega))]
  rw [drain_sourceF col f ids [] fuel fuel (by omega) (by omega) hread]
  simp

/-- Materializing a `find(p)` cursor yields exactly the matching items in
enumeration order and memoizes the list. -/
theorem toArrayC_find_condition {α : Type} (col : Collection α) (f : String → α)
    (p : α → Bool) (ids : List String) (flag : Bool) (idx : Option (List String))
    (hidx : col.index = .ok ids)
    (hread : ∀ id ∈ ids, col.read id = .ok (f id))
    (fuel : Nat) (hf : ids.length + 4 ≤ fuel) :
    Cursor.toArrayC fuel ⟨col, some (.condition (.source col none) (some p)), flag, idx, none⟩ =
      some (.ok ((ids.map f).filter p),
        ⟨col, some (.condition (.source col (some [])) (some p)), flag, idx,
          some ((ids.map f).filter p)⟩) := by
  rw [toArrayC_fresh]
  rw [drain_start fuel fuel _ (.condition (.source col (some ids)) (some p)) [] (by omega)
    (next_condition_fetchF col ids p hidx fuel (by omega))]
  rw [drain_conditionF col f p ids [] fuel fuel (by omega) (by omega) hread]
  simp

/-- Materializing a `find().offset(k)` cursor yields the tail of the full
enumeration after position `k` (empty with no error when `k` exceeds the
collection size) and memoizes it. -/
theorem toArrayC_find_offset {α : Type} (col : Collection α) (f : String → α)
    (ids : List String) (k : Nat) (flag : Bool) (idx : Option (List String))
    (hidx : col.index = .ok ids)
    (hread : ∀ id ∈ ids, col.read id = .ok (f id))
    (fuel : Nat) (hf : ids.length + 4 ≤ fuel) :
    ∃ s' : Stage α,
      Cursor.toArrayC fuel ⟨col, some (.offset (.source col none) (k : Int) false),
          flag, idx, none⟩ =
        some (.ok ((ids.map f).drop k),
          ⟨col, some s', flag, idx, some ((ids.map f).drop k)⟩) := by
  rw [toArrayC_fresh]
  cases Nat.eq_zero_or_pos k with
  | inl hk0 =>
    subst hk0
    simp only [Nat.cast_zero]
    rw [drain_start fuel fuel _ (.offset (.source col (some ids)) 0 false) [] (by omega)
      (next_offset_fetchF col ids 0 false hidx fuel (by omega))]
    rw [drain_offset_passF col f 0 false (Or.inr (by simp)) ids [] fuel fuel
      (by omega) (by omega) hread]
    exact ⟨.offset (.source col (some [])) 0 false, by simp⟩
  | inr hk1 =>
    rw [drain_start fuel fuel _ (.offset (.source col (some ids)) (k : Int) false) [] (by omega)
      (next_offset_fetchF col ids (k : Int) false hidx fuel (by omega))]
    rw [drain_offset_posF col f ids (k : Int) [] fuel fuel (by omega) (by omega)
      (by omega) hread]
    have hto : ((k : Int)).toNat = k := by omega
    by_cases hlt : (ids.length : Int) < (k : Int)
    · rw [if_pos hlt]
      have hdrop : (ids.map f).drop k = [] := by
        apply List.drop_eq_nil_of_le
        simp
        omega
      exact ⟨.offset (.source col (some [])) (k : Int) false, by rw [hdrop]⟩
    · rw [if_neg hlt]
      rw [hto]
      exact ⟨.offset (.source col (some [])) (k : Int) true, by simp⟩

/-- Materializing a `find().limit(k)` cursor yields the first `k` items of
the full enumeration (all of them when fewer exist) and memoizes them. -/
theorem toArrayC_find_limit {α : Type} (col : Collection α) (f : String → α)
    (ids : List String) (k : Nat) (flag : Bool) (idx : Option (List String))
    (hidx : col.index = .ok ids)
    (hread : ∀ id ∈ ids, col.read id = .ok (f id))
    (fuel : Nat) (hf : ids.length + 4 ≤ fuel) :
    ∃ s' : Stage α,
      Cursor.toArrayC fuel ⟨col, some (.limit (.source col none) (k : Int) (k : Int)),
          flag, idx, none⟩ =
        some (.ok ((ids.map f).take k),
          ⟨col, some s', flag, idx, some ((ids.map f).take k)⟩) := by
  rw [toArrayC_fresh]
  cases Nat.eq_zero_or_pos k with
  | inl hk0 =>
    subst hk0
    simp only [Nat.cast_zero]
    rw [drain_limit_nonposF (.source col none) 0 0 (by simp) [] fuel fuel (by omega) (by omega)]
    exact ⟨.limit (.source col none) 0 (-1), by simp⟩
  | inr hk1 =>
    rw [drain_start fuel fuel _ (.limit (.source col (some ids)) (k : Int) (k : Int)) []
      (by omega) (next_limit_fetchF col ids (k : Int) (k : Int) (by omega) hidx fuel (by omega))]
    rw [drain_limit_posF col f ids (k : Int) (k : Int) [] fuel fuel (by omega) (by omega)
      (by omega) hread]
    have hto : ((k : Int)).toNat = k := by omega
    by_cases hlt : (ids.length : Int) < (k : Int)
    · rw [if_pos hlt]
      have htake : (ids.map f).take k = ids.map f := by
        apply List.take_of_length_le
        simp
        omega
      exact ⟨.limit (.source col (some [])) (k : Int) ((k : Int) - ids.length - 1),
        by rw [htake]; simp⟩
    · rw [if_neg hlt]
      rw [hto]
      exact ⟨.limit (.source col (some (ids.drop k))) (k : Int) (-1), by simp⟩

/-- Materializing a `find().sort(spec)` cursor yields the full enumeration
sorted by the parsed comparator and memoizes it. -/
theorem toArrayC_find_sort {α : Type} (col : Collection α) (f : String → α)
    (sorter : α → α → Int) (ids : List String) (flag : Bool) (idx : Option (List String))
    (hidx : col.index = .ok ids)
    (hread : ∀ id ∈ ids, col.read id = .ok (f id))
    (fuel : Nat) (hf : ids.length + 4 ≤ fuel) :
    Cursor.toArrayC fuel ⟨col, some (.sort (.source col none) sorter none), flag, idx, none⟩ =
      some (.ok (sortList sorter (ids.map f)),
        ⟨col, some (.sort (.source col (some [])) sorter (some [])), flag, idx,
          some (sortList sorter (ids.map f))⟩) := by
  rw [toArrayC_fresh]
  rw [drain_start fuel fuel _ (.sort (.source col (some ids)) sorter none) [] (by omega)
    (next_sort_fetchF col ids sorter hidx fuel (by omega))]
  rw [drain_sortF col f sorter ids [] fuel fuel (by omega) (by omega) hread]
  simp

/-- Materializing a bare-`Source` cursor over a backend whose read fails at
some key reports exactly that error: nothing is memoized, no partial list is
delivered, and the keys after the failing one are never read. -/
theorem toArrayC_find_err {α : Type} (col : Collection α) (f : String → α) (e : Error)
    (pre : List String) (id : String) (post : List String) (flag : Bool)
    (idx : Option (List String))
    (hidx : col.index = .ok (pre ++ id :: post))
    (hpre : ∀ x ∈ pre, col.read x = .ok (f x))
    (herr : col.read id = .error e)
    (fuel : Nat) (hf : pre.length + 4 ≤ fuel) :
    Cursor.toArrayC fuel ⟨col, some (.source col none), flag, idx, none⟩ =
      some (.error e, ⟨col, some (.source col (some post)), flag, idx, none⟩) := by
  rw [toArrayC_fresh]
  rw [drain_start fuel fuel _ (.source col (some (pre ++ id :: post))) [] (by omega)
    (next_source_eqF col (pre ++ id :: post) hidx fuel (by omega))]
  rw [drain_source_errF col f e pre id post [] fuel fuel (by omega) (by omega) hpre herr]

theorem find_offset (col : Collection Item) (k : Int) :
    (find col none none).offsetC k =
      ⟨col, some (.offset (.source col none) k false), false, none, none⟩ := rfl

theorem find_limit (col : Collection Item) (k : Int) :
    (find col none none).limitC k =
      ⟨col, some (.limit (.source col none) k k), false, none, none⟩ := rfl

theorem find_sortArg (col : Collection Item) (arg : SortArg) :
    (find col none none).sortArg arg =
      ⟨col, some (.sort (.source col none) (parseSort arg) none), false, none, none⟩ := rfl

/-- C7 counterexample: on a cursor whose condition could not be normalized,
the first `nextObject` call reports the `invalid condition` error and leaves
the cursor in exactly its original state — so the next call, and every call
after it, reports the very same error again on the same cursor.  Calling
`toArray` twice likewise errors twice, because an error is never memoized.
This refutes the final conjunct of the claim, that the error "surfaces only
once per cursor per spec kind". -/
theorem claim7_counterexample :
    Cursor.nextObjectC 1 (find demoCol (some .unsupported) none) =
      .ok (some (.err .invalidCondition, find demoCol (some .unsupported) none)) ∧
    Cursor.toArrayC 1 (find demoCol (some .unsupported) none) =
      some (.error .invalidCondition, find demoCol (some .unsupported) none) := ⟨rfl, rfl⟩

/-- C7 (amended): a condition (or projection) argument that could not be
normalized into a callable raises no error at chain-construction time — the
constructor still installs the stage chain over a fresh `Source` — and the
resulting `InvalidSpecError` is raised at the first `nextObject` call that
needs it; each initiating call that needs the spec reports the error exactly
once (never once per skipped item, since no upstream item is pulled at all),
the cursor state is left unchanged, and the error is raised afresh by every
later call that needs it rather than surfacing only once per cursor. -/
theorem claim7_invalid_spec_raised_late (col : Collection Item) (fuel : Nat) (hf : 1 ≤ fuel) :
    (find col (some .unsupported) none).source =
      some (.condition (.source col none) none) ∧
    Cursor.nextObjectC fuel (find col (some .unsupported) none) =
      .ok (some (.err .invalidCondition, find col (some .unsupported) none)) ∧
    Cursor.toArrayC fuel (find col (some .unsupported) none) =
      some (.error .invalidCondition, find col (some .unsupported) none) ∧
    (find col none (some .unsupported)).source =
      some (.projection (.source col none) none) ∧
    Cursor.nextObjectC fuel (find col none (some .unsupported)) =
      .ok (some (.err .invalidProjection, find col none (some .unsupported))) := by
  obtain ⟨g, rfl⟩ : ∃ g, fuel = g + 1 := ⟨fuel - 1, by omega⟩
  exact ⟨rfl, rfl, rfl, rfl, rfl⟩

/-- C7 witness at a concrete fuel. -/
theorem claim7_witness :
    1 ≤ 5 ∧
      ((find demoCol (some .unsupported) none).source =
        some (.condition (.source demoCol none) none) ∧
      Cursor.nextObjectC 5 (find demoCol (some .unsupported) none) =
        .ok (some (.err .invalidCondition, find demoCol (some .unsupported) none)) ∧
      Cursor.toArrayC 5 (find demoCol (some .unsupported) none) =
        some (.error .invalidCondition, find demoCol (some .unsupported) none) ∧
      (find demoCol none (some .unsupported)).source =
        some (.projection (.source demoCol none) none) ∧
      Cursor.nextObjectC 5 (find demoCol none (some .unsupported)) =
        .ok (some (.err .invalidProjection, find demoCol none (some .unsupported)))) :=
  ⟨by omega, claim7_invalid_spec_raised_late demoCol 5 (by omega)⟩

/-- C9: neither `rewind` nor the chain-mutating `sort`/`offset`/`limit`
methods ever touch the cursor's memo fields, and a cursor whose `_toArray`
(or `_index`) memo is populated answers `toArray` (or `index`) from the memo
alone — for every fuel, every backend and every pipeline state, returning
the memoized sequence and leaving the cursor unchanged — even after a
`rewind` and further stage wrapping. -/
theorem claim9_caches_survive {α : Type} (col col2 : Collection α) (s : Stage α)
    (flag : Bool) (idx : Option (List String)) (arr : Option (List α))
    (l : List α) (idsl : List String) (sorter : α → α → Int) (off lim : Int) (fuel : Nat) :
    Cursor.rewindC (⟨col, some s, flag, idx, arr⟩ : Cursor α) =
      .ok ⟨col, some s.rewind, flag, idx, arr⟩ ∧
    Cursor.sortWith (⟨col, some s, flag, idx, arr⟩ : Cursor α) sorter =
      ⟨col, some (.sort s sorter none), false, idx, arr⟩ ∧
    Cursor.offsetC (⟨col, some s, flag, idx, arr⟩ : Cursor α) off =
      ⟨col, some (.offset s off false), false, idx, arr⟩ ∧
    Cursor.limitC (⟨col, some s, flag, idx, arr⟩ : Cursor α) lim =
      ⟨col, some (.limit s lim lim), false, idx, arr⟩ ∧
    Cursor.toArrayC fuel (⟨col2, some s, flag, idx, some l⟩ : Cursor α) =
      some (.ok l, ⟨col2, some s, flag, idx, some l⟩) ∧
    Cursor.indexC (⟨col2, some s, flag, some idsl, arr⟩ : Cursor α) =
      (.ok idsl, ⟨col2, some s, flag, some idsl, arr⟩) ∧
    Cursor.toArrayC fuel
        (((⟨col, some s, flag, idx, some l⟩ : Cursor α).sortWith sorter).offsetC off) =
      some (.ok l, ((⟨col, some s, flag, idx, some l⟩ : Cursor α).sortWith sorter).offsetC off) := by
  exact ⟨rfl, rfl, rfl, rfl, rfl, rfl, rfl⟩

/-- C10: every cursor built by `find()` has a `Source` installed as the
innermost stage of its chain head by the constructor — whatever the condition
and projection arguments are — so the `no source` guard of
`Proto.prototype.nextObject` and `Proto.prototype.rewind` can never fire on a
`find()`-created cursor. -/
theorem claim10_find_always_has_source (col : Collection Item)
    (cond : Option CondArg) (proj : Option ProjArg) :
    (∃ s, (find col cond proj).source = some s ∧ s.base = .source col none) ∧
    (∀ fuel, ∃ v, Cursor.nextObjectC fuel (find col cond proj) = .ok v) ∧
    (∃ c', Cursor.rewindC (find col cond proj) = .ok c') := by
  rcases cond with _ | arg
  · rcases proj with _ | parg
    · exact ⟨⟨_, rfl, rfl⟩, fun fuel => ⟨_, rfl⟩, ⟨_, rfl⟩⟩
    · rcases parg with f | ks | u
      · exact ⟨⟨_, rfl, rfl⟩, fun fuel => ⟨_, rfl⟩, ⟨_, rfl⟩⟩
      · exact ⟨⟨_, rfl, rfl⟩, fun fuel => ⟨_, rfl⟩, ⟨_, rfl⟩⟩
      · exact ⟨⟨_, rfl, rfl⟩, fun fuel => ⟨_, rfl⟩, ⟨_, rfl⟩⟩
  · rcases arg with p | m | u
    · rcases proj with _ | parg
      · exact ⟨⟨_, rfl, rfl⟩, fun fuel => ⟨_, rfl⟩, ⟨_, rfl⟩⟩
      · rcases parg with f | ks | u
        · exact ⟨⟨_, rfl, rfl⟩, fun fuel => ⟨_, rfl⟩, ⟨_, rfl⟩⟩
        · exact ⟨⟨_, rfl, rfl⟩, fun fuel => ⟨_, rfl⟩, ⟨_, rfl⟩⟩
        · exact ⟨⟨_, rfl, rfl⟩, fun fuel => ⟨_, rfl⟩, ⟨_, rfl⟩⟩
    · rcases proj with _ | parg
      · exact ⟨⟨_, rfl, rfl⟩, fun fuel => ⟨_, rfl⟩, ⟨_, rfl⟩⟩
      · rcases parg with f | ks | u
        · exact ⟨⟨_, rfl, rfl⟩, fun fuel => ⟨_, rfl⟩, ⟨_, rfl⟩⟩
        · exact ⟨⟨_, rfl, rfl⟩, fun fuel => ⟨_, rfl⟩, ⟨_, rfl⟩⟩
        · exact ⟨⟨_, rfl, rfl⟩, fun fuel => ⟨_, rfl⟩, ⟨_, rfl⟩⟩
    · rcases proj with _ | parg
      · exact ⟨⟨_, rfl, rfl⟩, fun fuel => ⟨_, rfl⟩, ⟨_, rfl⟩⟩
      · rcases parg with f | ks | u
        · exact ⟨⟨_, rfl, rfl⟩, fun fuel => ⟨_, rfl⟩, ⟨_, rfl⟩⟩
        · exact ⟨⟨_, rfl, rfl⟩, fun fuel => ⟨_, rfl⟩, ⟨_, rfl⟩⟩
        · exact ⟨⟨_, rfl, rfl⟩, fun fuel => ⟨_, rfl⟩, ⟨_, rfl⟩⟩

/-- One pull on a `Condition` stage over a fetched source reports its first
matching item (skipping every non-matching one) or end-of-sequence, leaving
the source positioned right after the match. -/
theorem next_condition_firstF {α : Type} (col : Collection α) (f : String → α) (p : α → Bool)
    (ids : List String) (fuel : Nat) (hf : ids.length + 2 ≤ fuel)
    (hread : ∀ id ∈ ids, col.read id = .ok (f id)) :
    Stage.next fuel (.condition (.source col (some ids)) (some p)) =
      some (match firstMatch (fun id => p (f id)) ids with
            | none => (.eof, .condition (.source col (some [])) (some p))
            | some (id, rest) => (.item (f id), .condition (.source col (some rest)) (some p))) := by
  obtain ⟨g, rfl⟩ : ∃ g, fuel = g + 2 := ⟨fuel - 2, by omega⟩
  rw [next_condition_unfold (g + 1)]
  rw [condLoop_source col f p ids (g + 1) g (by omega) hread]
  cases hfm : firstMatch (fun id => p (f id)) ids with
  | none => simp
  | some pr =>
    obtain ⟨id, rest⟩ := pr
    simp

/-- C1: on a healthy non-empty backend, `find(condition).count()` and
`find(condition).toArray()` agree — the count equals the materialized list's
length for every parsable condition, including none; without any condition
the fast key-count path is taken and the reported number is the key count,
which still equals the materialized length. -/
theorem claim1_count_agrees_with_toArray
    (col : Collection Item) (ids : List String) (f : String → Item) (cond : Option CondArg)
    (hidx : col.index = .ok ids) (hne : ids ≠ [])
    (hread : ∀ id ∈ ids, col.read id = .ok (f id))
    (hc : condArgOk cond = true)
    (fuel : Nat) (hf : ids.length + 4 ≤ fuel) :
    ∃ (cnt : Nat) (l : List Item) (c1 c2 : Cursor Item),
      Cursor.countC fuel (find col cond none) = some (.ok cnt, c1) ∧
      Cursor.toArrayC fuel (find col cond none) = some (.ok l, c2) ∧
      cnt = l.length ∧
      (cond = none → cnt = ids.length) := by
  rcases cond with _ | arg
  · rw [find_none_none]
    have harr := toArrayC_find_plain col f ids true none hidx hread fuel (by omega)
    have hcount : Cursor.countC fuel
        (⟨col, some (.source col none), true, none, none⟩ : Cursor Item) =
        some (.ok ids.length, ⟨col, some (.source col none), true, some ids, none⟩) := by
      simp [Cursor.countC, Cursor.indexC, hidx]
    exact ⟨ids.length, ids.map f, _, _, hcount, harr, by simp, fun _ => rfl⟩
  · rcases arg with p | m | u
    · rw [find_cond_func]
      have harr := toArrayC_find_condition col f p ids false none hidx hread fuel (by omega)
      have hcount : Cursor.countC fuel
          (⟨col, some (.condition (.source col none) (some p)), false, none, none⟩ : Cursor Item) =
          some (.ok ((ids.map f).filter p).length,
            ⟨col, some (.condition (.source col (some [])) (some p)), false, none,
              some ((ids.map f).filter p)⟩) := by
        simp [Cursor.countC, harr]
      exact ⟨((ids.map f).filter p).length, (ids.map f).filter p, _, _, hcount, harr, rfl,
        by intro h; simp at h⟩
    · rw [find_cond_eqmap]
      have harr := toArrayC_find_condition col f (eqPred m) ids false none hidx hread fuel
        (by omega)
      have hcount : Cursor.countC fuel
          (⟨col, some (.condition (.source col none) (some (eqPred m))), false, none, none⟩ :
            Cursor Item) =
          some (.ok ((ids.map f).filter (eqPred m)).length,
            ⟨col, some (.condition (.source col (some [])) (some (eqPred m))), false, none,
              some ((ids.map f).filter (eqPred m))⟩) := by
        simp [Cursor.countC, harr]
      exact ⟨((ids.map f).filter (eqPred m)).length, (ids.map f).filter (eqPred m), _, _,
        hcount, harr, rfl, by intro h; simp at h⟩
    · simp [condArgOk] at hc

/-- C2: `find(p).toArray()` delivers exactly the items of the full
enumeration that satisfy `p`, in enumeration order; one pull on the
`Condition` stage skips non-matching items and reports the first match or
end-of-sequence; an upstream read error is propagated immediately, with
nothing further pulled; and an exhausted upstream keeps yielding
end-of-sequence. -/
theorem claim2_condition_filter
    (col : Collection Item) (ids : List String) (f : String → Item) (p : Item → Bool)
    (hidx : col.index = .ok ids)
    (hread : ∀ id ∈ ids, col.read id = .ok (f id))
    (fuel : Nat) (hf : ids.length + 4 ≤ fuel) :
    Cursor.toArrayC fuel (find col (some (.func p)) none) =
      some (.ok ((ids.map f).filter p),
        ⟨col, some (.condition (.source col (some [])) (some p)), false, none,
          some ((ids.map f).filter p)⟩) ∧
    (∀ ids2 : List String, ids2.length + 2 ≤ fuel →
      (∀ id ∈ ids2, col.read id = .ok (f id)) →
      Stage.next fuel (.condition (.source col (some ids2)) (some p)) =
        some (match firstMatch (fun id => p (f id)) ids2 with
              | none => (.eof, .condition (.source col (some [])) (some p))
              | some (id, rest) => (.item (f id), .condition (.source col (some rest)) (some p)))) ∧
    (∀ (id : String) (tl : List String) (e : Error), col.read id = .error e →
      Stage.next fuel (.condition (.source col (some (id :: tl))) (some p)) =
        some (.err e, .condition (.source col (some tl)) (some p))) ∧
    Stage.next fuel (.condition (.source col (some [])) (some p)) =
      some (.eof, .condition (.source col (some [])) (some p)) := by
  refine ⟨?_, ?_, ?_, ?_⟩
  · rw [find_cond_func]
    exact toArrayC_find_condition col f p ids false none hidx hread fuel hf
  · intro ids2 h2 hread2
    exact next_condition_firstF col f p ids2 fuel h2 hread2
  · intro id tl e herr
    exact next_condition_errF col p id tl e herr fuel (by omega)
  · exact next_condition_eofF col p fuel (by omega)

/-- C3: `find().offset(k).toArray()` is exactly the tail of the unfiltered
enumeration from position `k` on — `N - k` items in truncated subtraction,
i.e. `max(0, N-k)`, with an empty result and no error when `k >= N` — and
once end-of-sequence was hit while discarding, the stage's state is
unchanged, so every further call reports end-of-sequence again. -/
theorem claim3_offset_tail
    (col : Collection Item) (ids : List String) (f : String → Item) (k : Nat)
    (hidx : col.index = .ok ids)
    (hread : ∀ id ∈ ids, col.read id = .ok (f id))
    (fuel : Nat) (hf : ids.length + 4 ≤ fuel) :
    (∃ s', Cursor.toArrayC fuel ((find col none none).offsetC (k : Int)) =
        some (.ok ((ids.map f).drop k),
          ⟨col, some s', false, none, some ((ids.map f).drop k)⟩)) ∧
    ((ids.map f).drop k).length = ids.length - k ∧
    (∀ j : Int, 1 ≤ j →
      Stage.next fuel (.offset (.source col (some [])) j false) =
        some (.eof, .offset (.source col (some [])) j false)) := by
  refine ⟨?_, by simp, ?_⟩
  · rw [find_offset]
    exact toArrayC_find_offset col f ids k false none hidx hread fuel hf
  · intro j hj
    exact next_offset_eof_stickyF col j hj fuel (by omega)

/-- C4: `find().limit(k).toArray()` is exactly the first `min(N, k)` items of
the unlimited enumeration, in the same relative order; a `Limit` stage with a
spent count reports end-of-sequence at once, decrementing the count and
leaving the upstream stage untouched whatever it is; and since every call
decrements the count, after `m >= k` calls the stage is spent, so the
`(k+1)`-th and every later call reports end-of-sequence immediately without
consulting upstream. -/
theorem claim4_limit_cap
    (col : Collection Item) (ids : List String) (f : String → Item) (k : Nat)
    (hidx : col.index = .ok ids)
    (hread : ∀ id ∈ ids, col.read id = .ok (f id))
    (fuel : Nat) (hf : ids.length + 4 ≤ fuel) :
    (∃ s', Cursor.toArrayC fuel ((find col none none).limitC (k : Int)) =
        some (.ok ((ids.map f).take k),
          ⟨col, some s', false, none, some ((ids.map f).take k)⟩)) ∧
    ((ids.map f).take k).length = min ids.length k ∧
    (∀ (src : Stage Item) (lim rest : Int), rest ≤ 0 →
      Stage.next fuel (.limit src lim rest) = some (.eof, .limit src lim (rest - 1))) ∧
    (∀ (fuel2 m : Nat) (src s' : Stage Item), k ≤ m →
      iterCalls fuel2 m (.limit src (k : Int) (k : Int)) = some s' →
      ∃ u r, s' = .limit u (k : Int) r ∧ r ≤ 0 ∧
        ∀ fuel3 : Nat, 1 ≤ fuel3 →
          Stage.next fuel3 s' = some (.eof, .limit u (k : Int) (r - 1))) := by
  refine ⟨?_, by simp [List.length_take]; omega, ?_, ?_⟩
  · rw [find_limit]
    exact toArrayC_find_limit col f ids k false none hidx hread fuel hf
  · intro src lim rest hrest
    exact next_limit_nonposF src lim rest hrest fuel (by omega)
  · intro fuel2 m src s' hm hiter
    obtain ⟨u, hu⟩ := iterCalls_limit fuel2 m src (k : Int) (k : Int) s' hiter
    refine ⟨u, (k : Int) - m, hu, by omega, ?_⟩
    intro fuel3 h3
    rw [hu]
    exact next_limit_nonposF u (k : Int) ((k : Int) - m) (by omega) fuel3 h3

/-- C8: when a backend read fails during `toArray`, the callback receives
only that error, verbatim: the items buffered before the failure are
discarded (no partial list is delivered), the keys after the failing one are
never pulled, and the cursor's memo cache stays empty, so the error is not
remembered. -/
theorem claim8_error_only
    (col : Collection Item) (f : String → Item) (e : Error)
    (pre : List String) (id : String) (post : List String)
    (hidx : col.index = .ok (pre ++ id :: post))
    (hpre : ∀ x ∈ pre, col.read x = .ok (f x))
    (herr : col.read id = .error e)
    (fuel : Nat) (hf : pre.length + 4 ≤ fuel) :
    Cursor.toArrayC fuel (find col none none) =
      some (.error e, ⟨col, some (.source col (some post)), true, none, none⟩) := by
  rw [find_none_none]
  exact toArrayC_find_err col f e pre id post true none hidx hpre herr fuel hf

theorem toArrayH_cached {α : Type} (fuel : Nat) (col : Collection α) (s : Option (Stage α))
    (flag : Bool) (idx : Option (List String)) (l : List α) (st : Store α) :
    Cursor.toArrayH fuel ⟨col, s, flag, idx, some l⟩ st =
      some (.ok st.arrs.length, ⟨col, s, flag, idx, some l⟩, ⟨st.arrs ++ [l]⟩) := rfl

theorem toArrayH_fresh {α : Type} (fuel : Nat) (col : Collection α) (s : Stage α)
    (flag : Bool) (idx : Option (List String)) (st : Store α) :
    Cursor.toArrayH fuel ⟨col, some s, flag, idx, none⟩ st =
      match drainLoop (fun t => Stage.next fuel t) fuel s [] with
      | none => none
      | some (.error e, s') => some (.error e, ⟨col, some s', flag, idx, none⟩, st)
      | some (.ok l, s') =>
        some (.ok st.arrs.length, ⟨col, some s', flag, idx, some l⟩, ⟨st.arrs ++ [l]⟩) := rfl

/-- C6: two successive `toArray` calls on the same cursor (no intervening
rewind) reply with references to two distinct arrays holding equal
sequences: the first successful result is memoized and every reply — fresh or
cached — is a defensive `[].concat` copy, so overwriting the array behind one
reference leaves the other reference's contents untouched. -/
theorem claim6_toArray_idempotent_defensive
    (col : Collection Item) (ids : List String) (f : String → Item)
    (hidx : col.index = .ok ids)
    (hread : ∀ id ∈ ids, col.read id = .ok (f id))
    (fuel : Nat) (hf : ids.length + 3 ≤ fuel) (st0 : Store Item) :
    ∃ (r1 r2 : Nat) (c1 c2 : Cursor Item) (st1 st2 : Store Item),
      Cursor.toArrayH fuel (find col none none) st0 = some (.ok r1, c1, st1) ∧
      Cursor.toArrayH fuel c1 st1 = some (.ok r2, c2, st2) ∧
      r1 ≠ r2 ∧
      st2.get r1 = st2.get r2 ∧
      (∀ l', (st2.set r1 l').get r2 = st2.get r2) ∧
      (∀ l', (st2.set r2 l').get r1 = st2.get r1) := by
  rw [find_none_none]
  have h1 : Cursor.toArrayH fuel
      (⟨col, some (.source col none), true, none, none⟩ : Cursor Item) st0 =
      some (.ok st0.arrs.length,
        ⟨col, some (.source col (some [])), true, none, some (ids.map f)⟩,
        ⟨st0.arrs ++ [ids.map f]⟩) := by
    rw [toArrayH_fresh]
    rw [drain_start fuel fuel _ (.source col (some ids)) [] (by omega)
      (next_source_eqF col ids hidx fuel (by omega))]
    rw [drain_sourceF col f ids [] fuel fuel (by omega) (by omega) hread]
    simp
  have h2 : Cursor.toArrayH fuel
      (⟨col, some (.source col (some [])), true, none, some (ids.map f)⟩ : Cursor Item)
      ⟨st0.arrs ++ [ids.map f]⟩ =
      some (.ok (st0.arrs ++ [ids.map f]).length,
        ⟨col, some (.source col (some [])), true, none, some (ids.map f)⟩,
        ⟨(st0.arrs ++ [ids.map f]) ++ [ids.map f]⟩) := toArrayH_cached _ _ _ _ _ _ _
  have hne : st0.arrs.length ≠ (st0.arrs ++ [ids.map f]).length := by simp
  have hget1 : (⟨(st0.arrs ++ [ids.map f]) ++ [ids.map f]⟩ : Store Item).get st0.arrs.length
      = ids.map f := by
    show ((st0.arrs ++ [ids.map f]) ++ [ids.map f]).getD st0.arrs.length [] = ids.map f
    rw [listGetD_append_lt _ _ _ _ (by simp)]
    exact listGetD_append_len _ _ _
  have hget2 : (⟨(st0.arrs ++ [ids.map f]) ++ [ids.map f]⟩ : Store Item).get
      (st0.arrs ++ [ids.map f]).length = ids.map f := listGetD_append_len _ _ _
  refine ⟨st0.arrs.length, (st0.arrs ++ [ids.map f]).length, _, _, _, _,
    h1, h2, hne, by rw [hget1, hget2], ?_, ?_⟩
  · intro l'
    show ((((st0.arrs ++ [ids.map f]) ++ [ids.map f]).set st0.arrs.length l')).getD
        (st0.arrs ++ [ids.map f]).length [] = _
    rw [listGetD_set_ne _ _ _ _ _ hne]
    rfl
  · intro l'
    show ((((st0.arrs ++ [ids.map f]) ++ [ids.map f]).set
        (st0.arrs ++ [ids.map f]).length l')).getD st0.arrs.length [] = _
    rw [listGetD_set_ne _ _ _ _ _ (fun h => hne h.symm)]
    rfl

/-- C5: with an object-form sort specification, `find().sort(spec).toArray()`
materializes the whole enumeration sorted by the parsed comparator; for a
single ascending key the resulting field values are non-decreasing under the
value comparison (non-increasing for a descending key), which on integer
fields is exactly the numeric order; a multi-key comparator falls through to
later keys, in declared order, exactly when the earlier key ties; and the
first pull on the `Sort` stage drains the entire upstream into a buffer,
sorts it, and serves buffered items one at a time. -/
theorem claim5_sort_spec
    (col : Collection Item) (ids : List String) (f : String → Item) (key : String)
    (hidx : col.index = .ok ids)
    (hread : ∀ id ∈ ids, col.read id = .ok (f id))
    (fuel : Nat) (hf : ids.length + 4 ≤ fuel) :
    (Cursor.toArrayC fuel ((find col none none).sortArg (.fields [(key, 1)])) =
      some (.ok (sortList (fieldComparator [(key, 1)]) (ids.map f)),
        ⟨col, some (.sort (.source col (some [])) (fieldComparator [(key, 1)]) (some [])),
          false, none, some (sortList (fieldComparator [(key, 1)]) (ids.map f))⟩)) ∧
    List.Chain' (fun a b => cmpValue (getField a key) (getField b key) ≤ 0)
      (sortList (fieldComparator [(key, 1)]) (ids.map f)) ∧
    (Cursor.toArrayC fuel ((find col none none).sortArg (.fields [(key, -1)])) =
      some (.ok (sortList (fieldComparator [(key, -1)]) (ids.map f)),
        ⟨col, some (.sort (.source col (some [])) (fieldComparator [(key, -1)]) (some [])),
          false, none, some (sortList (fieldComparator [(key, -1)]) (ids.map f))⟩)) ∧
    List.Chain' (fun a b => 0 ≤ cmpValue (getField a key) (getField b key))
      (sortList (fieldComparator [(key, -1)]) (ids.map f)) ∧
    (∀ na nb : Int, (cmpValue (some (.int na)) (some (.int nb)) ≤ 0 ↔ na ≤ nb) ∧
      (0 ≤ cmpValue (some (.int na)) (some (.int nb)) ↔ nb ≤ na)) ∧
    (∀ (k1 : String) (d : Int) (rest : List (String × Int)) (a b : Item),
      cmpValue (getField a k1) (getField b k1) = 0 →
      fieldComparator ((k1, d) :: rest) a b = fieldComparator rest a b) ∧
    (∀ sorter : Item → Item → Int,
      Stage.next fuel (.sort (.source col (some ids)) sorter none) =
        match sortList sorter (ids.map f) with
        | [] => some (.eof, .sort (.source col (some [])) sorter (some []))
        | a :: rest => some (.item a, .sort (.source col (some [])) sorter (some rest))) := by
  refine ⟨?_, ?_, ?_, ?_, ?_, ?_, ?_⟩
  · rw [find_sortArg]
    simp only [parseSort]
    exact toArrayC_find_sort col f (fieldComparator [(key, 1)]) ids false none hidx hread
      fuel hf
  · have hch := sorted_sortList (fieldComparator [(key, 1)])
      (fun a b => fieldComparator_antisym [(key, 1)] a b) (ids.map f)
    refine List.Chain'.imp ?_ hch
    intro a b h
    rwa [fieldComparator_single_asc] at h
  · rw [find_sortArg]
    simp only [parseSort]
    exact toArrayC_find_sort col f (fieldComparator [(key, -1)]) ids false none hidx hread
      fuel hf
  · have hch := sorted_sortList (fieldComparator [(key, -1)])
      (fun a b => fieldComparator_antisym [(key, -1)] a b) (ids.map f)
    refine List.Chain'.imp ?_ hch
    intro a b h
    rw [fieldComparator_single_desc] at h
    omega
  · exact cmpValue_int_le
  · exact fun k1 d rest a b h => fieldComparator_tie k1 d rest a b h
  · intro sorter
    have h := next_sort_drainF col f sorter ids fuel (by omega) hread
    cases hs : sortList sorter (ids.map f) with
    | nil => rw [hs] at h; exact h
    | cons a rest => rw [hs] at h; exact h

/-- C1 witness: the four-item demonstration backend, with the equality-map
condition on the decimal field. -/
theorem claim1_witness :
    (demoCol.index = .ok ["foo", "bar", "baz", "qux"] ∧
      (["foo", "bar", "baz", "qux"] : List String) ≠ [] ∧
      (∀ id ∈ (["foo", "bar", "baz", "qux"] : List String),
        demoCol.read id = .ok (demoItems id)) ∧
      condArgOk (some (.eqmap [("decimal", .int 123)])) = true ∧
      (["foo", "bar", "baz", "qux"] : List String).length + 4 ≤ 10) ∧
    (∃ (cnt : Nat) (l : List Item) (c1 c2 : Cursor Item),
      Cursor.countC 10 (find demoCol (some (.eqmap [("decimal", .int 123)])) none) =
        some (.ok cnt, c1) ∧
      Cursor.toArrayC 10 (find demoCol (some (.eqmap [("decimal", .int 123)])) none) =
        some (.ok l, c2) ∧
      cnt = l.length ∧
      ((some (CondArg.eqmap [("decimal", Value.int 123)]) : Option CondArg) = none →
        cnt = (["foo", "bar", "baz", "qux"] : List String).length)) :=
  ⟨⟨rfl, by decide, by intro id h; fin_cases h <;> rfl, rfl, by decide⟩,
    claim1_count_agrees_with_toArray demoCol ["foo", "bar", "baz", "qux"] demoItems
      (some (.eqmap [("decimal", .int 123)])) rfl (by decide)
      (by intro id h; fin_cases h <;> rfl) rfl 10 (by decide)⟩

/-- C2 witness: the demonstration backend filtered by `demoPred`. -/
theorem claim2_witness :
    (demoCol.index = .ok ["foo", "bar", "baz", "qux"] ∧
      (∀ id ∈ (["foo", "bar", "baz", "qux"] : List String),
        demoCol.read id = .ok (demoItems id)) ∧
      (["foo", "bar", "baz", "qux"] : List String).length + 4 ≤ 10) ∧
    Cursor.toArrayC 10 (find demoCol (some (.func demoPred)) none) =
      some (.ok (((["foo", "bar", "baz", "qux"] : List String).map demoItems).filter demoPred),
        ⟨demoCol, some (.condition (.source demoCol (some [])) (some demoPred)), false, none,
          some (((["foo", "bar", "baz", "qux"] : List String).map demoItems).filter demoPred)⟩) :=
  ⟨⟨rfl, by intro id h; fin_cases h <;> rfl, by decide⟩,
    (claim2_condition_filter demoCol ["foo", "bar", "baz", "qux"] demoItems demoPred rfl
      (by intro id h; fin_cases h <;> rfl) 10 (by decide)).1⟩

/-- C3 witness: offset 2 over the demonstration backend. -/
theorem claim3_witness :
    (demoCol.index = .ok ["foo", "bar", "baz", "qux"] ∧
      (∀ id ∈ (["foo", "bar", "baz", "qux"] : List String),
        demoCol.read id = .ok (demoItems id)) ∧
      (["foo", "bar", "baz", "qux"] : List String).length + 4 ≤ 10) ∧
    (∃ s', Cursor.toArrayC 10 ((find demoCol none none).offsetC ((2 : Nat) : Int)) =
        some (.ok (((["foo", "bar", "baz", "qux"] : List String).map demoItems).drop 2),
          ⟨demoCol, some s', false, none,
            some (((["foo", "bar", "baz", "qux"] : List String).map demoItems).drop 2)⟩)) :=
  ⟨⟨rfl, by intro id h; fin_cases h <;> rfl, by decide⟩,
    (claim3_offset_tail demoCol ["foo", "bar", "baz", "qux"] demoItems 2 rfl
      (by intro id h; fin_cases h <;> rfl) 10 (by decide)).1⟩

/-- C4 witness: limit 2 over the demonstration backend. -/
theorem claim4_witness :
    (demoCol.index = .ok ["foo", "bar", "baz", "qux"] ∧
      (∀ id ∈ (["foo", "bar", "baz", "qux"] : List String),
        demoCol.read id = .ok (demoItems id)) ∧
      (["foo", "bar", "baz", "qux"] : List String).length + 4 ≤ 10) ∧
    (∃ s', Cursor.toArrayC 10 ((find demoCol none none).limitC ((2 : Nat) : Int)) =
        some (.ok (((["foo", "bar", "baz", "qux"] : List String).map demoItems).take 2),
          ⟨demoCol, some s', false, none,
            some (((["foo", "bar", "baz", "qux"] : List String).map demoItems).take 2)⟩)) :=
  ⟨⟨rfl, by intro id h; fin_cases h <;> rfl, by decide⟩,
    (claim4_limit_cap demoCol ["foo", "bar", "baz", "qux"] demoItems 2 rfl
      (by intro id h; fin_cases h <;> rfl) 10 (by decide)).1⟩

/-- C5 witness: ascending sort on the decimal field of the demonstration
backend. -/
theorem claim5_witness :
    (demoCol.index = .ok ["foo", "bar", "baz", "qux"] ∧
      (∀ id ∈ (["foo", "bar", "baz", "qux"] : List String),
        demoCol.read id = .ok (demoItems id)) ∧
      (["foo", "bar", "baz", "qux"] : List String).length + 4 ≤ 10) ∧
    Cursor.toArrayC 10 ((find demoCol none none).sortArg (.fields [("decimal", 1)])) =
      some (.ok (sortList (fieldComparator [("decimal", 1)])
          ((["foo", "bar", "baz", "qux"] : List String).map demoItems)),
        ⟨demoCol,
          some (.sort (.source demoCol (some [])) (fieldComparator [("decimal", 1)]) (some [])),
          false, none,
          some (sortList (fieldComparator [("decimal", 1)])
            ((["foo", "bar", "baz", "qux"] : List String).map demoItems))⟩) :=
  ⟨⟨rfl, by intro id h; fin_cases h <;> rfl, by decide⟩,
    (claim5_sort_spec demoCol ["foo", "bar", "baz", "qux"] demoItems "decimal" rfl
      (by intro id h; fin_cases h <;> rfl) 10 (by decide)).1⟩

/-- C6 witness: two calls on the demonstration backend starting from the
empty store. -/
theorem claim6_witness :
    (demoCol.index = .ok ["foo", "bar", "baz", "qux"] ∧
      (∀ id ∈ (["foo", "bar", "baz", "qux"] : List String),
        demoCol.read id = .ok (demoItems id)) ∧
      (["foo", "bar", "baz", "qux"] : List String).length + 3 ≤ 10) ∧
    (∃ (r1 r2 : Nat) (c1 c2 : Cursor Item) (st1 st2 : Store Item),
      Cursor.toArrayH 10 (find demoCol none none) ⟨[]⟩ = some (.ok r1, c1, st1) ∧
      Cursor.toArrayH 10 c1 st1 = some (.ok r2, c2, st2) ∧
      r1 ≠ r2 ∧
      st2.get r1 = st2.get r2 ∧
      (∀ l', (st2.set r1 l').get r2 = st2.get r2) ∧
      (∀ l', (st2.set r2 l').get r1 = st2.get r1)) :=
  ⟨⟨rfl, by intro id h; fin_cases h <;> rfl, by decide⟩,
    claim6_toArray_idempotent_defensive demoCol ["foo", "bar", "baz", "qux"] demoItems rfl
      (by intro id h; fin_cases h <;> rfl) 10 (by decide) ⟨[]⟩⟩

/-- C8 witness: the backend whose read of the middle key fails. -/
theorem claim8_witness :
    (badCol.index = .ok (["a"] ++ "b" :: ["c"]) ∧
      (∀ x ∈ (["a"] : List String), badCol.read x = .ok [("k", .int 1)]) ∧
      badCol.read "b" = .error (.backend "boom") ∧
      (["a"] : List String).length + 4 ≤ 10) ∧
    Cursor.toArrayC 10 (find badCol none none) =
      some (.error (.backend "boom"),
        ⟨badCol, some (.source badCol (some ["c"])), true, none, none⟩) :=
  ⟨⟨rfl, by intro x h; fin_cases h <;> rfl, rfl, by decide⟩,
    claim8_error_only badCol (fun _ => [("k", .int 1)]) (.backend "boom") ["a"] "b" ["c"]
      rfl (by intro x h; fin_cases h <;> rfl) rfl 10 (by decide)⟩
